import Mathlib

/-!
The in-memory task repository and the task service of todo-wails-go.

A shallow embedding of `internal/domain/models/task.go`,
`internal/adapter/db/memory.go`, `internal/adapter/service/task_service.go`,
the `TaskRepository` interface of `internal/domain/ports/repository.go` and
the `Update` and `Delete` methods of `internal/adapter/db/postgres.go`.

Modelling conventions.

* `time.Time` is an instant, an `Int`; `Before`, `After` are `<`, `>`.
* `Priority` and `Status` are Go `int` types: any integer can be held
  (requests are decoded from JSON without range checks), so they are `Int`.
* A `*models.Task` is an address into a heap of `Task` objects (`World.heap`);
  the repository map `tasks map[string]*models.Task` is an association list
  from keys to addresses whose list order stands for the (unspecified)
  order in which `range` visits the map.
* `*time.Time` and the pointer fields of `FilterOptions` are `Option`s of
  the value pointed to; sharing of a `DueDate` pointee between a record and
  its copy is therefore outside the model.
* Go compares strings bytewise; on valid UTF-8 this is the order by code
  points, which is the order of `String`.
* `uuid.New().String()` and `time.Now()` are inputs of the operations that
  call them.
* `sort.Slice` (Go standard library) is taken by its contract, `SliceSorter`.
* What `database/sql` returns for a statement is an input, `SqlDB`.
* The service is written against the repository interface; `TaskService` is
  the service on the in-memory repository, `service` the same code over any
  implementation of the interface.
* The read/write mutex is not modelled: operations run one at a time.
-/

namespace TodoWails

/-! ## models -/

/-- Priority levels, `type Priority int`. -/
def PriorityLow : Int := 0

/-- Second value of the `iota` block. -/
def PriorityMedium : Int := 1

/-- Third value of the `iota` block. -/
def PriorityHigh : Int := 2

/-- Completion status, `type Status int`. -/
def StatusActive : Int := 0

/-- Second value of the `iota` block. -/
def StatusCompleted : Int := 1

/-- The `Task` struct. -/
structure Task where
  ID : String
  Title : String
  Description : String
  Priority : Int
  Status : Int
  DueDate : Option Int
  CreatedAt : Int
  UpdatedAt : Int
deriving DecidableEq, Repr, Inhabited

/-- The `CreateTaskRequest` struct. -/
structure CreateTaskRequest where
  Title : String
  Description : String
  Priority : Int
  DueDate : Option Int
deriving DecidableEq, Repr

/-- The `UpdateTaskRequest` struct. -/
structure UpdateTaskRequest where
  ID : String
  Title : String
  Description : String
  Priority : Int
  Status : Int
  DueDate : Option Int
deriving DecidableEq, Repr

/-- The `FilterOptions` struct; a nil pointer field is `none`. -/
structure FilterOptions where
  Status : Option Int
  Priority : Option Int
  DateFrom : Option Int
  DateTo : Option Int
  SortBy : String
  SortOrder : String
deriving DecidableEq, Repr

/-- The `context.Context` argument threaded through every call; only whether
it is already cancelled is recorded. -/
structure Context where
  cancelled : Bool
deriving DecidableEq, Repr

/-- Go `error` values built with `fmt.Errorf`: a plain message, or a message
wrapping a cause through the `%w` verb. -/
inductive Error where
  | errorf (msg : String)
  | wrapf (msg : String) (cause : Error)
deriving DecidableEq, Repr

/-! ## heap and map -/

/-- A `*models.Task`: the address of a `Task` object. -/
abbrev Ptr := Nat

/-- The program state: the heap of `Task` objects and the repository's
`tasks` map. -/
structure World where
  heap : List Task
  tasks : List (String × Ptr)
deriving DecidableEq, Repr

/-- Pointer dereference `*p`. -/
def World.load (w : World) (p : Ptr) : Task := w.heap.getD p default

/-- Allocation of a new object holding `t` (`&models.Task{...}`, or the
address of a local copy). -/
def World.alloc (w : World) (t : Task) : Ptr × World :=
  (w.heap.length, { w with heap := w.heap ++ [t] })

/-- Assignment through a pointer, `*p = t` (field assignments `p.F = v` are
written as a store of the updated record). -/
def World.store (w : World) (p : Ptr) (t : Task) : World :=
  { w with heap := w.heap.set p t }

/-- Map index expression `m[id]` with the comma-ok form. -/
def mapGet : List (String × Ptr) → String → Option Ptr
  | [], _ => none
  | (k, p) :: m, id => if k = id then some p else mapGet m id

/-- Map assignment `m[id] = q`. -/
def mapSet : List (String × Ptr) → String → Ptr → List (String × Ptr)
  | [], id, q => [(id, q)]
  | (k, p) :: m, id, q => if k = id then (k, q) :: m else (k, p) :: mapSet m id q

/-- The builtin `delete(m, id)`. -/
def mapDelete (m : List (String × Ptr)) (id : String) : List (String × Ptr) :=
  m.filter (fun e => decide (e.1 ≠ id))

/-- The empty repository of `NewMemoryRepository`, on an empty heap. -/
def NewMemoryRepository : World := { heap := [], tasks := [] }

/-! ## sort.Slice -/

/-- The requirement `sort.Slice` puts on its `less` function: a strict weak
ordering (irreflexive, transitive, and transitive on incomparability). -/
structure LessOrder {α : Type} (less : α → α → Bool) : Prop where
  irrefl : ∀ a, less a a = false
  trans : ∀ a b c, less a b = true → less b c = true → less a c = true
  negTrans : ∀ a b c, less a b = false → less b c = false → less a c = false

/-- The contract of `sort.Slice` on a slice of task pointers: the result is a
rearrangement of the input and, when `less` is a strict weak ordering, no
element is `less` than one placed before it. The sort need not be stable. -/
structure SliceSorter where
  sort : (Ptr → Ptr → Bool) → List Ptr → List Ptr
  perm : ∀ less xs, (sort less xs).Perm xs
  sorted : ∀ less xs, LessOrder less →
    (sort less xs).Pairwise (fun a b => less b a = false)

/-- Inner loop of the insertion sort that `sort.Slice` runs on slices of at
most twelve elements: `x` moves left past every element it is `less` than.
The already sorted prefix is held reversed (last element first). -/
def insertLeft (less : Ptr → Ptr → Bool) (x : Ptr) : List Ptr → List Ptr
  | [] => [x]
  | y :: ys => if less x y then y :: insertLeft less x ys else x :: y :: ys

/-- Insertion sort, outer loop. -/
def insertionSort (less : Ptr → Ptr → Bool) (xs : List Ptr) : List Ptr :=
  (xs.foldl (fun acc x => insertLeft less x acc) []).reverse

/-! ## MemoryRepository -/

namespace MemoryRepository

/-- `MemoryRepository.Create`: stores the caller's pointer under the key
`task.ID`. -/
def Create (w : World) (_ctx : Context) (task : Ptr) : Except Error Unit × World :=
  (.ok (), { w with tasks := mapSet w.tasks (w.load task).ID task })

/-- `MemoryRepository.GetByID`: returns the address of a fresh copy. -/
def GetByID (w : World) (_ctx : Context) (id : String) : Except Error Ptr × World :=
  match mapGet w.tasks id with
  | none => (.error (.errorf "task not found"), w)
  | some task =>
    let (taskCopy, w1) := w.alloc (w.load task)
    (.ok taskCopy, w1)

/-- The filter part of the loop body of `GetAll`: `false` where the body
reaches a `continue`. -/
def keepTask (filter : Option FilterOptions) (task : Task) : Bool :=
  match filter with
  | none => true
  | some f =>
    if f.Status.isSome ∧ some task.Status ≠ f.Status then false
    else if f.Priority.isSome ∧ some task.Priority ≠ f.Priority then false
    else if (match f.DateFrom with
        | some d => decide (task.CreatedAt < d)
        | none => false) then false
    else if (match f.DateTo with
        | some d => decide (task.CreatedAt > d)
        | none => false) then false
    else true

/-- The `for _, task := range r.tasks` loop of `GetAll`: every kept task is
copied and the address of the copy appended to the slice. -/
def collect (filter : Option FilterOptions) :
    List (String × Ptr) → World → List Ptr → List Ptr × World
  | [], w, tasks => (tasks, w)
  | (_, task) :: rest, w, tasks =>
    if keepTask filter (w.load task) then
      let (taskCopy, w1) := w.alloc (w.load task)
      collect filter rest w1 (tasks ++ [taskCopy])
    else collect filter rest w tasks

/-- The `less` closure passed to `sort.Slice` when `filter.SortBy` is not
empty. -/
def sortLess (f : FilterOptions) (a b : Task) : Bool :=
  if f.SortBy = "title" then
    if f.SortOrder = "desc" then decide (a.Title > b.Title)
    else decide (a.Title < b.Title)
  else if f.SortBy = "priority" then
    if f.SortOrder = "desc" then decide (a.Priority > b.Priority)
    else decide (a.Priority < b.Priority)
  else if f.SortBy = "due_date" then
    match a.DueDate, b.DueDate with
    | none, none => false
    | none, some _ => false
    | some _, none => true
    | some da, some db =>
      if f.SortOrder = "desc" then decide (da > db) else decide (da < db)
  else
    if f.SortOrder = "desc" then decide (a.CreatedAt > b.CreatedAt)
    else decide (a.CreatedAt < b.CreatedAt)

/-- The `less` closure of the `else` branch: `created_at` descending. -/
def defaultLess (a b : Task) : Bool := decide (a.CreatedAt > b.CreatedAt)

/-- The comparison `GetAll` sorts with. -/
def lessFor (filter : Option FilterOptions) : Task → Task → Bool :=
  match filter with
  | none => defaultLess
  | some f => if f.SortBy ≠ "" then sortLess f else defaultLess

/-- `MemoryRepository.GetAll`. -/
def GetAll (srt : SliceSorter) (w : World) (_ctx : Context)
    (filter : Option FilterOptions) : Except Error (List Ptr) × World :=
  let (tasks, w1) := collect filter w.tasks w []
  (.ok (srt.sort (fun i j => lessFor filter (w1.load i) (w1.load j)) tasks), w1)

/-- `MemoryRepository.Update`: stores the caller's pointer under `task.ID`
when that key is present. -/
def Update (w : World) (_ctx : Context) (task : Ptr) : Except Error Unit × World :=
  match mapGet w.tasks (w.load task).ID with
  | none => (.error (.errorf "task not found"), w)
  | some _ => (.ok (), { w with tasks := mapSet w.tasks (w.load task).ID task })

/-- `MemoryRepository.Delete`. -/
def Delete (w : World) (_ctx : Context) (id : String) : Except Error Unit × World :=
  match mapGet w.tasks id with
  | none => (.error (.errorf "task not found"), w)
  | some _ => (.ok (), { w with tasks := mapDelete w.tasks id })

end MemoryRepository

/-! ## TaskService -/

namespace TaskService

/-- `TaskService.CreateTask`; `uuid` is the value of `uuid.New().String()` and
`now` the value of `time.Now()`. -/
def CreateTask (w : World) (ctx : Context) (req : CreateTaskRequest)
    (uuid : String) (now : Int) : Except Error Ptr × World :=
  if req.Title = "" then (.error (.errorf "title is required"), w)
  else
    let (task, w1) := w.alloc
      { ID := uuid, Title := req.Title, Description := req.Description,
        Priority := req.Priority, Status := StatusActive, DueDate := req.DueDate,
        CreatedAt := now, UpdatedAt := now }
    match MemoryRepository.Create w1 ctx task with
    | (.error err, w2) => (.error (.wrapf "failed to create task" err), w2)
    | (.ok _, w2) => (.ok task, w2)

/-- `TaskService.GetTask`. -/
def GetTask (w : World) (ctx : Context) (id : String) : Except Error Ptr × World :=
  if id = "" then (.error (.errorf "id is required"), w)
  else MemoryRepository.GetByID w ctx id

/-- `TaskService.GetTasks`. -/
def GetTasks (srt : SliceSorter) (w : World) (ctx : Context)
    (filter : Option FilterOptions) : Except Error (List Ptr) × World :=
  MemoryRepository.GetAll srt w ctx filter

/-- `TaskService.UpdateTask`; `now` is the value of `time.Now()`. -/
def UpdateTask (w : World) (ctx : Context) (req : UpdateTaskRequest)
    (now : Int) : Except Error Ptr × World :=
  if req.ID = "" then (.error (.errorf "id is required"), w)
  else if req.Title = "" then (.error (.errorf "title is required"), w)
  else
    match MemoryRepository.GetByID w ctx req.ID with
    | (.error err, w1) => (.error (.wrapf "failed to get task" err), w1)
    | (.ok task, w1) =>
      let w2 := w1.store task
        { w1.load task with
          Title := req.Title, Description := req.Description,
          Priority := req.Priority, Status := req.Status,
          DueDate := req.DueDate, UpdatedAt := now }
      match MemoryRepository.Update w2 ctx task with
      | (.error err, w3) => (.error (.wrapf "failed to update task" err), w3)
      | (.ok _, w3) => (.ok task, w3)

/-- `TaskService.DeleteTask`. -/
def DeleteTask (w : World) (ctx : Context) (id : String) : Except Error Unit × World :=
  if id = "" then (.error (.errorf "id is required"), w)
  else
    match MemoryRepository.GetByID w ctx id with
    | (.error err, w1) => (.error (.wrapf "failed to get task" err), w1)
    | (.ok _, w1) => MemoryRepository.Delete w1 ctx id

/-- `TaskService.ToggleTaskStatus`; `now` is the value of `time.Now()`. -/
def ToggleTaskStatus (w : World) (ctx : Context) (id : String)
    (now : Int) : Except Error Ptr × World :=
  if id = "" then (.error (.errorf "id is required"), w)
  else
    match MemoryRepository.GetByID w ctx id with
    | (.error err, w1) => (.error (.wrapf "failed to get task" err), w1)
    | (.ok task, w1) =>
      let w2 :=
        if (w1.load task).Status = StatusActive then
          w1.store task { w1.load task with Status := StatusCompleted }
        else
          w1.store task { w1.load task with Status := StatusActive }
      let w3 := w2.store task { w2.load task with UpdatedAt := now }
      match MemoryRepository.Update w3 ctx task with
      | (.error err, w4) => (.error (.wrapf "failed to update task" err), w4)
      | (.ok _, w4) => (.ok task, w4)

end TaskService

/-! ## views of the state and its invariants -/

/-- The task stored under key `id`, if any. -/
def World.find (w : World) (id : String) : Option Task :=
  (mapGet w.tasks id).map w.load

/-- The stored tasks, one per map entry. -/
def World.stored (w : World) : List Task := w.tasks.map (fun e => w.load e.2)

/-- Memory safety: every pointer held by the map refers to an allocated
object. -/
def World.Valid (w : World) : Prop := ∀ e ∈ w.tasks, e.2 < w.heap.length

/-- The repository invariant: every task is stored under its own `ID`. -/
def World.Keyed (w : World) : Prop := ∀ e ∈ w.tasks, (w.load e.2).ID = e.1

instance (w : World) : Decidable w.Valid := by unfold World.Valid; infer_instance

instance (w : World) : Decidable w.Keyed := by unfold World.Keyed; infer_instance

/-! ## insertion sort as an instance of the contract of sort.Slice -/

/-- Insertion sort as an instance of the `sort.Slice` contract. -/
def insertionSorter : SliceSorter where
  sort := insertionSort
  perm := by
    intro less xs
    have hins : ∀ (x : Ptr) (ys : List Ptr), (insertLeft less x ys).Perm (x :: ys) := by
      intro x ys
      induction ys with
      | nil => simp [insertLeft]
      | cons y ys ih =>
        by_cases h : less x y = true
        · simp only [insertLeft, h, if_true]
          exact (List.Perm.cons y ih).trans (List.Perm.swap x y ys)
        · simp [insertLeft, h]
    have hfold : ∀ (xs acc : List Ptr),
        (xs.foldl (fun acc x => insertLeft less x acc) acc).Perm (xs ++ acc) := by
      intro xs
      induction xs with
      | nil => intro acc; simp
      | cons x xs ih =>
        intro acc
        simp only [List.foldl_cons]
        refine (ih _).trans ?_
        refine (List.Perm.append_left xs (hins x acc)).trans ?_
        simp
    unfold insertionSort
    refine (List.reverse_perm _).trans ?_
    simpa using hfold xs []
  sorted := by
    intro less xs ho
    have hins : ∀ (x : Ptr) (ys : List Ptr), (insertLeft less x ys).Perm (x :: ys) := by
      intro x ys
      induction ys with
      | nil => simp [insertLeft]
      | cons y ys ih =>
        by_cases h : less x y = true
        · simp only [insertLeft, h, if_true]
          exact (List.Perm.cons y ih).trans (List.Perm.swap x y ys)
        · simp [insertLeft, h]
    have hstep : ∀ (x : Ptr) (ys : List Ptr),
        ys.Pairwise (fun a b => less a b = false) →
        (insertLeft less x ys).Pairwise (fun a b => less a b = false) := by
      intro x ys
      induction ys with
      | nil => intro _; simp [insertLeft]
      | cons y ys ih =>
        intro hs
        rw [List.pairwise_cons] at hs
        by_cases h : less x y = true
        · simp only [insertLeft, h, if_true]
          rw [List.pairwise_cons]
          refine ⟨?_, ih hs.2⟩
          intro z hz
          rcases List.mem_cons.1 ((hins x ys).subset hz) with hzx | hzy
          · subst hzx
            cases hyz : less y z with
            | false => rfl
            | true => have := ho.trans _ _ _ hyz h; rw [ho.irrefl] at this; cases this
          · exact hs.1 z hzy
        · have hxy : less x y = false := by simpa using h
          simp only [insertLeft, hxy, Bool.false_eq_true, if_false]
          rw [List.pairwise_cons, List.pairwise_cons]
          refine ⟨?_, hs.1, hs.2⟩
          intro z hz
          rcases List.mem_cons.1 hz with hzy | hzy
          · subst hzy; exact hxy
          · exact ho.negTrans _ _ _ hxy (hs.1 z hzy)
    have hfold : ∀ (xs acc : List Ptr),
        acc.Pairwise (fun a b => less a b = false) →
        (xs.foldl (fun acc x => insertLeft less x acc) acc).Pairwise
          (fun a b => less a b = false) := by
      intro xs
      induction xs with
      | nil => intro acc hs; simpa using hs
      | cons x xs ih =>
        intro acc hs
        simp only [List.foldl_cons]
        exact ih _ (hstep x acc hs)
    unfold insertionSort
    rw [List.pairwise_reverse]
    exact hfold xs [] List.Pairwise.nil

/-! ## the filtering rule of the specification and the result of GetAll -/

/-- The filtering rule in the words of the specification: each of the four
filters is unset or satisfied by the task. -/
def matchesSpec (f : FilterOptions) (t : Task) : Bool :=
  (f.Status == none || f.Status == some t.Status) &&
  (f.Priority == none || f.Priority == some t.Priority) &&
  (match f.DateFrom with
    | none => true
    | some d => decide (t.CreatedAt ≥ d)) &&
  (match f.DateTo with
    | none => true
    | some d => decide (t.CreatedAt ≤ d))

/-- The rule applied to an optional filter: a nil filter matches every task. -/
def matchesFilter (filter : Option FilterOptions) (t : Task) : Bool :=
  match filter with
  | none => true
  | some f => matchesSpec f t

/-- The tasks among `entries` that the loop of `GetAll` keeps. -/
def keptOf (filter : Option FilterOptions) (w : World)
    (entries : List (String × Ptr)) : List Task :=
  (entries.map (fun e => w.load e.2)).filter (MemoryRepository.keepTask filter)

/-- The state `GetAll` leaves: the heap extended by the copies of the kept
tasks, the map untouched. -/
def afterGetAll (filter : Option FilterOptions) (w : World) : World :=
  { w with heap := w.heap ++ keptOf filter w w.tasks }

/-- The slice `GetAll` returns: the addresses of the copies, sorted. -/
def resultOfGetAll (srt : SliceSorter) (filter : Option FilterOptions) (w : World) :
    List Ptr :=
  srt.sort (fun i j => MemoryRepository.lessFor filter
      ((afterGetAll filter w).load i) ((afterGetAll filter w).load j))
    (List.range' w.heap.length (keptOf filter w w.tasks).length)

/-- Sort key of the ascending `due_date` comparison: a missing due date is
the top element. -/
def dueKeyAsc (t : Task) : WithTop Int :=
  match t.DueDate with
  | none => ⊤
  | some d => (d : WithTop Int)

/-- Sort key of the descending `due_date` comparison: dates in reverse order,
a missing due date still the top element. -/
def dueKeyDesc (t : Task) : WithTop Intᵒᵈ :=
  match t.DueDate with
  | none => ⊤
  | some d => ((OrderDual.toDual d : Intᵒᵈ) : WithTop Intᵒᵈ)

/-! ## states after the service operations -/

/-- The state after a new object holding `t` is allocated and the map entry
for `id` is set to its address. -/
def putTask (w : World) (id : String) (t : Task) : World :=
  { heap := w.heap ++ [t], tasks := mapSet w.tasks id w.heap.length }

/-- The store after two successive `ToggleTaskStatus` calls on `id`. -/
def toggledTwice (w : World) (ctx : Context) (id : String) (now1 now2 : Int) : World :=
  (TaskService.ToggleTaskStatus
    (TaskService.ToggleTaskStatus w ctx id now1).2 ctx id now2).2

/-- The record a caller reads through the pointer that `GetByID` returns. -/
def readByID (w : World) (ctx : Context) (id : String) : Option Task :=
  match MemoryRepository.GetByID w ctx id with
  | (.ok task, w1) => some (w1.load task)
  | (.error _, _) => none

/-! ## sample data -/

/-- A context that is not cancelled. -/
def background : Context := { cancelled := false }

/-- A store of three tasks with priorities Low, High, Medium. -/
def sampleWorld : World :=
  { heap :=
      [ { ID := "a", Title := "write", Description := "", Priority := PriorityLow,
          Status := StatusActive, DueDate := none, CreatedAt := 10, UpdatedAt := 10 },
        { ID := "b", Title := "read", Description := "", Priority := PriorityHigh,
          Status := StatusCompleted, DueDate := some 50, CreatedAt := 20, UpdatedAt := 25 },
        { ID := "c", Title := "call", Description := "", Priority := PriorityMedium,
          Status := StatusActive, DueDate := some 40, CreatedAt := 30, UpdatedAt := 30 } ],
    tasks := [("a", 0), ("b", 1), ("c", 2)] }

/-- A filter that only sorts. -/
def sortOnly (sortBy sortOrder : String) : FilterOptions :=
  { Status := none, Priority := none, DateFrom := none, DateTo := none,
    SortBy := sortBy, SortOrder := sortOrder }

/-- A filter on status Completed and priority High, default sort. -/
def completedHigh : FilterOptions :=
  { Status := some StatusCompleted, Priority := some PriorityHigh, DateFrom := none,
    DateTo := none, SortBy := "", SortOrder := "asc" }

/-- The request of the scenario of the specification. -/
def milkRequest : CreateTaskRequest :=
  { Title := "Buy milk", Description := "", Priority := PriorityLow, DueDate := none }

/-- The task stored by `milkWorld`. -/
def milkTask : Task :=
  { ID := "t1", Title := "Buy milk", Description := "", Priority := PriorityLow,
    Status := StatusActive, DueDate := none, CreatedAt := 1, UpdatedAt := 1 }

/-- A store with the single task of `milkRequest`, created through the
service. -/
def milkWorld : World :=
  (TaskService.CreateTask NewMemoryRepository background milkRequest "t1" 1).2

/-- An update of the task of `milkWorld` that completes it. -/
def milkUpdate : UpdateTaskRequest :=
  { ID := "t1", Title := "Buy oat milk", Description := "2l", Priority := PriorityHigh,
    Status := StatusCompleted, DueDate := some 9 }

/-- An update that sets a status outside Active and Completed. -/
def oddStatusRequest : UpdateTaskRequest :=
  { ID := "t1", Title := "Buy milk", Description := "", Priority := PriorityLow,
    Status := 2, DueDate := none }

/-- The store after that update. -/
def oddStatusWorld : World :=
  (TaskService.UpdateTask milkWorld background oddStatusRequest 2).2

/-! ## PostgresRepository: Update and Delete -/

/-- The `sql.Result` of an executed statement, as far as it matters here: the
number of rows it affected. -/
structure SqlResult where
  rowsAffected : Nat
deriving DecidableEq, Repr

/-- The `*sql.DB` handle as `Update` and `Delete` use it: what `ExecContext`
returns for the UPDATE statement with the fields of a task as arguments, and
for the DELETE statement with an id as argument. The database behind the
handle (database/sql and the server) is an input. -/
structure SqlDB where
  execUpdate : Context → Task → Except Error SqlResult
  execDelete : Context → String → Except Error SqlResult

namespace PostgresRepository

/-- `PostgresRepository.Update`: the `sql.Result` is discarded and the error
of `ExecContext` returned. -/
def Update (db : SqlDB) (ctx : Context) (task : Task) : Except Error Unit :=
  match db.execUpdate ctx task with
  | .error err => .error err
  | .ok _ => .ok ()

/-- `PostgresRepository.Delete`: the `sql.Result` is discarded and the error
of `ExecContext` returned. -/
def Delete (db : SqlDB) (ctx : Context) (id : String) : Except Error Unit :=
  match db.execDelete ctx id with
  | .error err => .error err
  | .ok _ => .ok ()

end PostgresRepository

/-- A database in which no row has the id asked for: UPDATE and DELETE
execute without error and affect zero rows. -/
def noSuchRow : SqlDB :=
  { execUpdate := fun _ _ => .ok { rowsAffected := 0 },
    execDelete := fun _ _ => .ok { rowsAffected := 0 } }

/-! ## the service over the repository interface -/

/-- The `ports.TaskRepository` interface (without `Close`): the five
operations, acting on the program state. -/
structure TaskRepository where
  Create : World → Context → Ptr → Except Error Unit × World
  GetByID : World → Context → String → Except Error Ptr × World
  GetAll : World → Context → Option FilterOptions → Except Error (List Ptr) × World
  Update : World → Context → Ptr → Except Error Unit × World
  Delete : World → Context → String → Except Error Unit × World

/-- The in-memory repository as an implementation of the interface. -/
def memoryRepository (srt : SliceSorter) : TaskRepository :=
  { Create := MemoryRepository.Create,
    GetByID := MemoryRepository.GetByID,
    GetAll := MemoryRepository.GetAll srt,
    Update := MemoryRepository.Update,
    Delete := MemoryRepository.Delete }

/-- The task `CreateTask` builds from a request. -/
def newTask (req : CreateTaskRequest) (uuid : String) (now : Int) : Task :=
  { ID := uuid, Title := req.Title, Description := req.Description,
    Priority := req.Priority, Status := StatusActive, DueDate := req.DueDate,
    CreatedAt := now, UpdatedAt := now }

/-- The field assignments of `UpdateTask` on the loaded task. -/
def updateFields (w : World) (task : Ptr) (req : UpdateTaskRequest) (now : Int) : World :=
  w.store task
    { w.load task with
      Title := req.Title, Description := req.Description,
      Priority := req.Priority, Status := req.Status,
      DueDate := req.DueDate, UpdatedAt := now }

/-- The field assignments of `ToggleTaskStatus` on the loaded task. -/
def toggleFields (w : World) (task : Ptr) (now : Int) : World :=
  let w2 :=
    if (w.load task).Status = StatusActive then
      w.store task { w.load task with Status := StatusCompleted }
    else
      w.store task { w.load task with Status := StatusActive }
  w2.store task { w2.load task with UpdatedAt := now }

namespace service

/-- `TaskService.CreateTask` over any repository `s.repo`. -/
def CreateTask (repo : TaskRepository) (w : World) (ctx : Context)
    (req : CreateTaskRequest) (uuid : String) (now : Int) : Except Error Ptr × World :=
  if req.Title = "" then (.error (.errorf "title is required"), w)
  else
    let (task, w1) := w.alloc (newTask req uuid now)
    match repo.Create w1 ctx task with
    | (.error err, w2) => (.error (.wrapf "failed to create task" err), w2)
    | (.ok _, w2) => (.ok task, w2)

/-- `TaskService.GetTask` over any repository. -/
def GetTask (repo : TaskRepository) (w : World) (ctx : Context) (id : String) :
    Except Error Ptr × World :=
  if id = "" then (.error (.errorf "id is required"), w)
  else repo.GetByID w ctx id

/-- `TaskService.GetTasks` over any repository. -/
def GetTasks (repo : TaskRepository) (w : World) (ctx : Context)
    (filter : Option FilterOptions) : Except Error (List Ptr) × World :=
  repo.GetAll w ctx filter

/-- `TaskService.UpdateTask` over any repository. -/
def UpdateTask (repo : TaskRepository) (w : World) (ctx : Context)
    (req : UpdateTaskRequest) (now : Int) : Except Error Ptr × World :=
  if req.ID = "" then (.error (.errorf "id is required"), w)
  else if req.Title = "" then (.error (.errorf "title is required"), w)
  else
    match repo.GetByID w ctx req.ID with
    | (.error err, w1) => (.error (.wrapf "failed to get task" err), w1)
    | (.ok task, w1) =>
      match repo.Update (updateFields w1 task req now) ctx task with
      | (.error err, w3) => (.error (.wrapf "failed to update task" err), w3)
      | (.ok _, w3) => (.ok task, w3)

/-- `TaskService.DeleteTask` over any repository. -/
def DeleteTask (repo : TaskRepository) (w : World) (ctx : Context) (id : String) :
    Except Error Unit × World :=
  if id = "" then (.error (.errorf "id is required"), w)
  else
    match repo.GetByID w ctx id with
    | (.error err, w1) => (.error (.wrapf "failed to get task" err), w1)
    | (.ok _, w1) => repo.Delete w1 ctx id

/-- `TaskService.ToggleTaskStatus` over any repository. -/
def ToggleTaskStatus (repo : TaskRepository) (w : World) (ctx : Context) (id : String)
    (now : Int) : Except Error Ptr × World :=
  if id = "" then (.error (.errorf "id is required"), w)
  else
    match repo.GetByID w ctx id with
    | (.error err, w1) => (.error (.wrapf "failed to get task" err), w1)
    | (.ok task, w1) =>
      match repo.Update (toggleFields w1 task now) ctx task with
      | (.error err, w4) => (.error (.wrapf "failed to update task" err), w4)
      | (.ok _, w4) => (.ok task, w4)

end service

/-- A repository whose every call fails with the same error, as when the
connection to the storage is lost. -/
def brokenRepository : TaskRepository :=
  { Create := fun w _ _ => (.error (.errorf "connection refused"), w),
    GetByID := fun w _ _ => (.error (.errorf "connection refused"), w),
    GetAll := fun w _ _ => (.error (.errorf "connection refused"), w),
    Update := fun w _ _ => (.error (.errorf "connection refused"), w),
    Delete := fun w _ _ => (.error (.errorf "connection refused"), w) }

/-- A repository that reads like the in-memory one and whose writes fail. -/
def readOnlyRepository (srt : SliceSorter) : TaskRepository :=
  { Create := fun w _ _ => (.error (.errorf "read-only storage"), w),
    GetByID := MemoryRepository.GetByID,
    GetAll := MemoryRepository.GetAll srt,
    Update := fun w _ _ => (.error (.errorf "read-only storage"), w),
    Delete := fun w _ _ => (.error (.errorf "read-only storage"), w) }

/-! ## sequences of service calls -/

/-- One call of a `TaskService` operation with its arguments (and the values
of `uuid.New().String()` and `time.Now()` it draws). -/
inductive ServiceCall where
  | createTask (ctx : Context) (req : CreateTaskRequest) (uuid : String) (now : Int)
  | getTask (ctx : Context) (id : String)
  | getTasks (ctx : Context) (filter : Option FilterOptions)
  | updateTask (ctx : Context) (req : UpdateTaskRequest) (now : Int)
  | deleteTask (ctx : Context) (id : String)
  | toggleTaskStatus (ctx : Context) (id : String) (now : Int)

/-- The state a call leaves, whether it succeeds or fails. -/
def ServiceCall.run (srt : SliceSorter) (w : World) : ServiceCall → World
  | .createTask ctx req uuid now => (TaskService.CreateTask w ctx req uuid now).2
  | .getTask ctx id => (TaskService.GetTask w ctx id).2
  | .getTasks ctx filter => (TaskService.GetTasks srt w ctx filter).2
  | .updateTask ctx req now => (TaskService.UpdateTask w ctx req now).2
  | .deleteTask ctx id => (TaskService.DeleteTask w ctx id).2
  | .toggleTaskStatus ctx id now => (TaskService.ToggleTaskStatus w ctx id now).2

/-- The state after a sequence of calls on the empty in-memory store. -/
def runCalls (srt : SliceSorter) (calls : List ServiceCall) : World :=
  calls.foldl (ServiceCall.run srt) NewMemoryRepository

/-- Every stored task has a non-empty title. -/
def World.Titled (w : World) : Prop := ∀ e ∈ w.tasks, (w.load e.2).Title ≠ ""

/-- A context that is already cancelled. -/
def cancelledContext : Context := { cancelled := true }

/-- A state in which a caller has built a task and nothing is stored yet. -/
def draftWorld : World := { heap := [milkTask], tasks := [] }

/-! ## heap lemmas -/

theorem load_alloc_old (w : World) (t : Task) (p : Ptr) (h : p < w.heap.length) :
    (w.alloc t).2.load p = w.load p := by
  simp [World.alloc, World.load, List.getD_eq_getElem?_getD, List.getElem?_append_left h]

theorem load_alloc_new (w : World) (t : Task) :
    (w.alloc t).2.load (w.alloc t).1 = t := by
  simp [World.alloc, World.load, List.getD_append_right]

theorem load_store_same (w : World) (t : Task) (p : Ptr) (h : p < w.heap.length) :
    (w.store p t).load p = t := by
  simp [World.store, World.load, List.getD_eq_getElem?_getD, h]

theorem load_store_other (w : World) (t : Task) (p q : Ptr) (h : p ≠ q) :
    (w.store p t).load q = w.load q := by
  simp [World.store, World.load, List.getD_eq_getElem?_getD, List.getElem?_set_ne h]

/-! ## map lemmas -/

theorem mapGet_mem {m : List (String × Ptr)} {id : String} {p : Ptr}
    (h : mapGet m id = some p) : (id, p) ∈ m := by
  induction m with
  | nil => simp [mapGet] at h
  | cons e m ih =>
    obtain ⟨k, q⟩ := e
    by_cases hk : k = id
    · simp [mapGet, hk] at h
      simp [hk, h]
    · simp [mapGet, hk] at h
      exact List.mem_cons_of_mem _ (ih h)

theorem mapGet_mapSet_same (m : List (String × Ptr)) (id : String) (q : Ptr) :
    mapGet (mapSet m id q) id = some q := by
  induction m with
  | nil => simp [mapSet, mapGet]
  | cons e m ih =>
    obtain ⟨k, p⟩ := e
    by_cases hk : k = id
    · simp [mapSet, mapGet, hk]
    · simp [mapSet, mapGet, hk, ih]

theorem mapGet_mapSet_other (m : List (String × Ptr)) (id k : String) (q : Ptr)
    (h : k ≠ id) : mapGet (mapSet m id q) k = mapGet m k := by
  induction m with
  | nil => simp [mapSet, mapGet, Ne.symm h]
  | cons e m ih =>
    obtain ⟨k0, p⟩ := e
    by_cases hk : k0 = id
    · subst hk
      simp [mapSet, mapGet, Ne.symm h]
    · by_cases hk2 : k0 = k
      · subst hk2
        simp [mapSet, mapGet, h]
      · simp [mapSet, mapGet, hk, hk2, ih]

theorem mem_mapSet {m : List (String × Ptr)} {id : String} {q : Ptr}
    {e : String × Ptr} (h : e ∈ mapSet m id q) : e ∈ m ∨ e = (id, q) := by
  induction m with
  | nil => simpa [mapSet] using h
  | cons e0 m ih =>
    obtain ⟨k, p⟩ := e0
    by_cases hk : k = id
    · subst hk
      simp only [mapSet, if_true, List.mem_cons] at h
      rcases h with h | h
      · exact Or.inr h
      · exact Or.inl (List.mem_cons_of_mem _ h)
    · simp only [mapSet, hk, if_false, List.mem_cons] at h
      rcases h with h | h
      · left; subst h; exact List.mem_cons_self _ _
      · rcases ih h with h1 | h1
        · exact Or.inl (List.mem_cons_of_mem _ h1)
        · exact Or.inr h1

/-! ## the filter loop of GetAll -/

theorem keepTask_eq_matchesFilter (filter : Option FilterOptions) (t : Task) :
    MemoryRepository.keepTask filter t = matchesFilter filter t := by
  cases filter with
  | none => rfl
  | some f =>
    obtain ⟨st, pr, df, dt, sb, so⟩ := f
    cases st <;> cases pr <;> cases df <;> cases dt <;>
      simp [MemoryRepository.keepTask, matchesFilter, matchesSpec]
    all_goals (rw [Bool.eq_iff_iff]; simp [eq_comm (a := t.Status), eq_comm (a := t.Priority), and_assoc])

theorem load_range_append (l k : List Task) :
    (List.range' l.length k.length).map (fun i => (l ++ k).getD i default) = k := by
  induction k generalizing l with
  | nil => simp
  | cons x k ih =>
    have h := ih (l ++ [x])
    simp only [List.length_append, List.length_singleton, List.append_assoc,
      List.singleton_append] at h
    simp only [List.length_cons, List.range'_succ, List.map_cons, h]
    simp [List.getD_eq_getElem?_getD, List.getElem_append_right]

theorem collect_eq (filter : Option FilterOptions) :
    ∀ (entries : List (String × Ptr)) (w : World) (acc : List Ptr),
      (∀ e ∈ entries, e.2 < w.heap.length) →
      MemoryRepository.collect filter entries w acc =
        (acc ++ List.range' w.heap.length (keptOf filter w entries).length,
          { w with heap := w.heap ++ keptOf filter w entries }) := by
  unfold keptOf
  intro entries
  induction entries with
  | nil => intro w acc _; simp [MemoryRepository.collect]
  | cons e rest ih =>
    intro w acc hv
    obtain ⟨k, p⟩ := e
    have hrest : ∀ e ∈ rest, e.2 < w.heap.length :=
      fun e he => hv e (List.mem_cons_of_mem _ he)
    by_cases hkeep : MemoryRepository.keepTask filter (w.load p) = true
    · have hrest1 : ∀ e ∈ rest, e.2 < (w.alloc (w.load p)).2.heap.length := by
        intro e he
        simp only [World.alloc, List.length_append, List.length_singleton]
        exact Nat.lt_succ_of_lt (hrest e he)
      have hload : rest.map (fun e => (w.alloc (w.load p)).2.load e.2)
          = rest.map (fun e => w.load e.2) :=
        List.map_congr_left (fun e he => load_alloc_old w _ _ (hrest e he))
      simp only [MemoryRepository.collect, hkeep, if_true, List.map_cons, List.filter_cons]
      rw [ih _ _ hrest1, hload]
      simp [World.alloc, List.range'_succ]
    · simp only [MemoryRepository.collect, hkeep, if_false, List.map_cons, List.filter_cons]
      simp only [Bool.false_eq_true, if_false]
      exact ih w acc hrest

theorem getAll_eq (srt : SliceSorter) (w : World) (ctx : Context)
    (filter : Option FilterOptions) (hv : w.Valid) :
    MemoryRepository.GetAll srt w ctx filter
      = (.ok (resultOfGetAll srt filter w), afterGetAll filter w) := by
  have hc := collect_eq filter w.tasks w [] hv
  simp only [MemoryRepository.GetAll, hc, resultOfGetAll, afterGetAll, List.nil_append]

theorem resultOfGetAll_perm (srt : SliceSorter) (w : World)
    (filter : Option FilterOptions) :
    ((resultOfGetAll srt filter w).map (afterGetAll filter w).load).Perm
      (w.stored.filter (matchesFilter filter)) := by
  refine ((srt.perm _ _).map _).trans ?_
  have h : (fun t => MemoryRepository.keepTask filter t) = matchesFilter filter :=
    funext (keepTask_eq_matchesFilter filter)
  have h2 : (afterGetAll filter w).load
      = fun i => (w.heap ++ keptOf filter w w.tasks).getD i default := rfl
  rw [h2, load_range_append]
  simp [keptOf, World.stored, ← h]

theorem resultOfGetAll_sorted (srt : SliceSorter) (w : World)
    (filter : Option FilterOptions) (ho : LessOrder (MemoryRepository.lessFor filter)) :
    ((resultOfGetAll srt filter w).map (afterGetAll filter w).load).Pairwise
      (fun a b => MemoryRepository.lessFor filter b a = false) := by
  rw [List.pairwise_map]
  refine srt.sorted _ _ ?_
  exact ⟨fun a => ho.irrefl _, fun a b c => ho.trans _ _ _, fun a b c => ho.negTrans _ _ _⟩

/-- C1. For every in-memory store and every filter, `GetAll` succeeds and the
records it returns are, counted with multiplicity, exactly the stored tasks
that satisfy the filtering rule of the specification (each filter unset or
met, combined by AND); with a nil filter they are all the stored tasks. -/
theorem getAll_returns_matching (srt : SliceSorter) (w : World) (ctx : Context)
    (filter : Option FilterOptions) (hv : w.Valid) :
    ∃ tasks w1, MemoryRepository.GetAll srt w ctx filter = (.ok tasks, w1) ∧
      (tasks.map w1.load).Perm (w.stored.filter (matchesFilter filter)) ∧
      (filter = none → (tasks.map w1.load).Perm w.stored) := by
  refine ⟨_, _, getAll_eq srt w ctx filter hv, resultOfGetAll_perm srt w filter, ?_⟩
  intro hnone
  have h := resultOfGetAll_perm srt w filter
  subst hnone
  have hm : matchesFilter none = fun _ => true := rfl
  simpa [hm] using h

/-! ## the comparisons of GetAll are strict weak orderings -/

theorem lessOrder_of_key {α β : Type} [LinearOrder β] (less : α → α → Bool)
    (key : α → β) (h : ∀ a b, less a b = true ↔ key a < key b) : LessOrder less := by
  have hf : ∀ a b, less a b = false ↔ key b ≤ key a := by
    intro a b
    rw [← not_lt, ← h, Bool.not_eq_true]
  refine ⟨?_, ?_, ?_⟩
  · intro a
    rw [hf]
  · intro a b c hab hbc
    rw [h] at *
    exact lt_trans hab hbc
  · intro a b c hab hbc
    rw [hf] at *
    exact le_trans hbc hab

theorem defaultLess_lessOrder : LessOrder MemoryRepository.defaultLess :=
  lessOrder_of_key _ (fun t => OrderDual.toDual t.CreatedAt) (by
    intro a b
    simp [MemoryRepository.defaultLess])

theorem sortLess_lessOrder (f : FilterOptions) : LessOrder (MemoryRepository.sortLess f) := by
  by_cases h1 : f.SortBy = "title"
  · by_cases hd : f.SortOrder = "desc"
    · exact lessOrder_of_key _ (fun t => OrderDual.toDual t.Title) (by
        intro a b; simp [MemoryRepository.sortLess, h1, hd])
    · exact lessOrder_of_key _ (fun t => t.Title) (by
        intro a b; simp [MemoryRepository.sortLess, h1, hd])
  · by_cases h2 : f.SortBy = "priority"
    · by_cases hd : f.SortOrder = "desc"
      · exact lessOrder_of_key _ (fun t => OrderDual.toDual t.Priority) (by
          intro a b; simp [MemoryRepository.sortLess, h1, h2, hd])
      · exact lessOrder_of_key _ (fun t => t.Priority) (by
          intro a b; simp [MemoryRepository.sortLess, h1, h2, hd])
    · by_cases h3 : f.SortBy = "due_date"
      · by_cases hd : f.SortOrder = "desc"
        · exact lessOrder_of_key _ dueKeyDesc (by
            intro a b
            cases ha : a.DueDate <;> cases hb : b.DueDate <;>
              simp [MemoryRepository.sortLess, h1, h2, h3, hd, dueKeyAsc, dueKeyDesc, ha, hb])
        · exact lessOrder_of_key _ dueKeyAsc (by
            intro a b
            cases ha : a.DueDate <;> cases hb : b.DueDate <;>
              simp [MemoryRepository.sortLess, h1, h2, h3, hd, dueKeyAsc, dueKeyDesc, ha, hb])
      · by_cases hd : f.SortOrder = "desc"
        · exact lessOrder_of_key _ (fun t => OrderDual.toDual t.CreatedAt) (by
            intro a b; simp [MemoryRepository.sortLess, h1, h2, h3, hd])
        · exact lessOrder_of_key _ (fun t => t.CreatedAt) (by
            intro a b; simp [MemoryRepository.sortLess, h1, h2, h3, hd])

theorem lessFor_lessOrder (filter : Option FilterOptions) :
    LessOrder (MemoryRepository.lessFor filter) := by
  cases filter with
  | none => exact defaultLess_lessOrder
  | some f =>
    by_cases h : f.SortBy = ""
    · simpa [MemoryRepository.lessFor, h] using defaultLess_lessOrder
    · simpa [MemoryRepository.lessFor, h] using sortLess_lessOrder f

/-- C2. With a nil filter, or a filter whose `SortBy` is empty (whatever its
`SortOrder`), `GetAll` returns the matching tasks with `CreatedAt`
descending: no element is created before one that follows it, in particular
for every adjacent pair. -/
theorem getAll_default_created_desc (srt : SliceSorter) (w : World) (ctx : Context)
    (filter : Option FilterOptions) (hv : w.Valid)
    (hf : ∀ f, filter = some f → f.SortBy = "") :
    ∃ tasks w1, MemoryRepository.GetAll srt w ctx filter = (.ok tasks, w1) ∧
      (tasks.map w1.load).Perm (w.stored.filter (matchesFilter filter)) ∧
      (tasks.map w1.load).Pairwise (fun a b => ¬ a.CreatedAt < b.CreatedAt) ∧
      (tasks.map w1.load).Chain' (fun a b => ¬ a.CreatedAt < b.CreatedAt) := by
  have hs := resultOfGetAll_sorted srt w filter (lessFor_lessOrder filter)
  have hless : MemoryRepository.lessFor filter = MemoryRepository.defaultLess := by
    cases filter with
    | none => rfl
    | some f => simp [MemoryRepository.lessFor, hf f rfl]
  rw [hless] at hs
  have hp : ((resultOfGetAll srt filter w).map (afterGetAll filter w).load).Pairwise
      (fun a b => ¬ a.CreatedAt < b.CreatedAt) := by
    refine hs.imp ?_
    intro a b hab
    simpa [MemoryRepository.defaultLess] using hab
  exact ⟨_, _, getAll_eq srt w ctx filter hv, resultOfGetAll_perm srt w filter, hp,
    hp.chain'⟩

/-- Pairwise order of the records `GetAll` returns, in terms of the comparison
it sorted with. -/
theorem getAll_sorted (srt : SliceSorter) (w : World) (ctx : Context)
    (filter : Option FilterOptions) (hv : w.Valid) :
    ∃ tasks w1, MemoryRepository.GetAll srt w ctx filter = (.ok tasks, w1) ∧
      (tasks.map w1.load).Perm (w.stored.filter (matchesFilter filter)) ∧
      (tasks.map w1.load).Pairwise
        (fun a b => MemoryRepository.lessFor filter b a = false) :=
  ⟨_, _, getAll_eq srt w ctx filter hv, resultOfGetAll_perm srt w filter,
    resultOfGetAll_sorted srt w filter (lessFor_lessOrder filter)⟩

/-- C8. For `SortBy` "title", "priority" or "created_at", `GetAll` returns
the matching tasks ordered by that key: non-increasing when `SortOrder` is
"desc", non-decreasing for every other `SortOrder`. In particular, when the
matching tasks have priorities Low, High, Medium (in any order of storage),
sorting by "priority" in "desc" order returns them as High, Medium, Low. -/
theorem getAll_sorted_by_key (srt : SliceSorter) (w : World) (ctx : Context)
    (f : FilterOptions) (hv : w.Valid) :
    ∃ tasks w1, MemoryRepository.GetAll srt w ctx (some f) = (.ok tasks, w1) ∧
      (tasks.map w1.load).Perm (w.stored.filter (matchesFilter (some f))) ∧
      (f.SortBy = "title" → f.SortOrder = "desc" →
        (tasks.map w1.load).Pairwise (fun a b => a.Title ≥ b.Title)) ∧
      (f.SortBy = "title" → f.SortOrder ≠ "desc" →
        (tasks.map w1.load).Pairwise (fun a b => a.Title ≤ b.Title)) ∧
      (f.SortBy = "priority" → f.SortOrder = "desc" →
        (tasks.map w1.load).Pairwise (fun a b => a.Priority ≥ b.Priority)) ∧
      (f.SortBy = "priority" → f.SortOrder ≠ "desc" →
        (tasks.map w1.load).Pairwise (fun a b => a.Priority ≤ b.Priority)) ∧
      (f.SortBy = "created_at" → f.SortOrder = "desc" →
        (tasks.map w1.load).Pairwise (fun a b => a.CreatedAt ≥ b.CreatedAt)) ∧
      (f.SortBy = "created_at" → f.SortOrder ≠ "desc" →
        (tasks.map w1.load).Pairwise (fun a b => a.CreatedAt ≤ b.CreatedAt)) ∧
      (f.SortBy = "priority" → f.SortOrder = "desc" →
        ((w.stored.filter (matchesFilter (some f))).map (fun t => t.Priority)).Perm
          [PriorityLow, PriorityHigh, PriorityMedium] →
        (tasks.map w1.load).map (fun t => t.Priority)
          = [PriorityHigh, PriorityMedium, PriorityLow]) := by
  obtain ⟨tasks, w1, heq, hperm, hs⟩ := getAll_sorted srt w ctx (some f) hv
  have hprio : f.SortBy = "priority" → f.SortOrder = "desc" →
      (tasks.map w1.load).Pairwise (fun a b => a.Priority ≥ b.Priority) := by
    intro h1 h2
    refine hs.imp ?_
    intro a b hab
    simpa [MemoryRepository.lessFor, MemoryRepository.sortLess, h1, h2] using hab
  refine ⟨tasks, w1, heq, hperm, ?_, ?_, hprio, ?_, ?_, ?_, ?_⟩
  · intro h1 h2
    refine hs.imp ?_
    intro a b hab
    simpa [MemoryRepository.lessFor, MemoryRepository.sortLess, h1, h2] using hab
  · intro h1 h2
    refine hs.imp ?_
    intro a b hab
    simpa [MemoryRepository.lessFor, MemoryRepository.sortLess, h1, h2] using hab
  · intro h1 h2
    refine hs.imp ?_
    intro a b hab
    simpa [MemoryRepository.lessFor, MemoryRepository.sortLess, h1, h2] using hab
  · intro h1 h2
    refine hs.imp ?_
    intro a b hab
    simpa [MemoryRepository.lessFor, MemoryRepository.sortLess, h1, h2] using hab
  · intro h1 h2
    refine hs.imp ?_
    intro a b hab
    simpa [MemoryRepository.lessFor, MemoryRepository.sortLess, h1, h2] using hab
  · intro h1 h2 h3
    have hp : ((tasks.map w1.load).map (fun t => t.Priority)).Perm
        [PriorityHigh, PriorityMedium, PriorityLow] :=
      ((hperm.map _).trans h3).trans (by decide)
    have hsorted : ((tasks.map w1.load).map (fun t => t.Priority)).Sorted (· ≥ ·) := by
      rw [List.Sorted, List.pairwise_map]
      exact hprio h1 h2
    exact List.eq_of_perm_of_sorted hp hsorted (by decide)

/-- C9. For `SortBy` "due_date", whatever the `SortOrder`, no task without
a due date is placed before a task that has one; two tasks that both have
a due date are in chronological order, reversed when `SortOrder` is
"desc". -/
theorem getAll_due_date_order (srt : SliceSorter) (w : World) (ctx : Context)
    (f : FilterOptions) (hv : w.Valid) (hby : f.SortBy = "due_date") :
    ∃ tasks w1, MemoryRepository.GetAll srt w ctx (some f) = (.ok tasks, w1) ∧
      (tasks.map w1.load).Perm (w.stored.filter (matchesFilter (some f))) ∧
      (tasks.map w1.load).Pairwise (fun a b =>
        (a.DueDate = none → b.DueDate = none) ∧
        (∀ da db, a.DueDate = some da → b.DueDate = some db →
          if f.SortOrder = "desc" then da ≥ db else da ≤ db)) := by
  obtain ⟨tasks, w1, heq, hperm, hs⟩ := getAll_sorted srt w ctx (some f) hv
  refine ⟨tasks, w1, heq, hperm, hs.imp ?_⟩
  intro a b hab
  cases ha : a.DueDate <;> cases hb : b.DueDate <;>
    by_cases hd : f.SortOrder = "desc" <;>
    simp [MemoryRepository.lessFor, MemoryRepository.sortLess, hby, ha, hb, hd] at hab ⊢ <;>
    exact hab

/-! ## storing a new object under a key -/

theorem load_append_old (w : World) (ts : List Task) (p : Ptr) (h : p < w.heap.length) :
    ({ w with heap := w.heap ++ ts } : World).load p = w.load p := by
  simp [World.load, List.getD_eq_getElem?_getD, List.getElem?_append_left h]

theorem load_putTask_new (w : World) (id : String) (t : Task) :
    (putTask w id t).load w.heap.length = t := by
  simp [putTask, World.load, List.getD_eq_getElem?_getD]

theorem load_putTask_old (w : World) (id : String) (t : Task) (p : Ptr)
    (h : p < w.heap.length) : (putTask w id t).load p = w.load p := by
  simp [putTask, World.load, List.getD_eq_getElem?_getD, List.getElem?_append_left h]

theorem find_putTask_same (w : World) (id : String) (t : Task) :
    (putTask w id t).find id = some t := by
  have h := load_putTask_new w id t
  simp only [World.find]
  rw [show (putTask w id t).tasks = mapSet w.tasks id w.heap.length from rfl,
    mapGet_mapSet_same]
  simp [h]

theorem find_putTask_other (w : World) (id k : String) (t : Task) (hv : w.Valid)
    (h : k ≠ id) : (putTask w id t).find k = w.find k := by
  simp only [World.find]
  rw [show (putTask w id t).tasks = mapSet w.tasks id w.heap.length from rfl,
    mapGet_mapSet_other _ _ _ _ h]
  cases hg : mapGet w.tasks k with
  | none => rfl
  | some p =>
    simp only [Option.map_some']
    rw [load_putTask_old w id t p (hv _ (mapGet_mem hg))]

theorem putTask_valid (w : World) (id : String) (t : Task) (hv : w.Valid) :
    (putTask w id t).Valid := by
  intro e he
  have hlen : (putTask w id t).heap.length = w.heap.length + 1 := by simp [putTask]
  rw [hlen]
  rcases mem_mapSet he with h | h
  · exact Nat.lt_succ_of_lt (hv e h)
  · subst h; exact Nat.lt_succ_self _

theorem putTask_keyed (w : World) (id : String) (t : Task) (hv : w.Valid)
    (hk : w.Keyed) (hid : t.ID = id) : (putTask w id t).Keyed := by
  intro e he
  have hmem : e ∈ mapSet w.tasks id w.heap.length := he
  by_cases hlen : e.2 = w.heap.length
  · rw [hlen, load_putTask_new]
    rcases mem_mapSet hmem with h | h
    · exact absurd hlen (Nat.ne_of_lt (hv e h))
    · rw [h]; exact hid
  · rcases mem_mapSet hmem with h | h
    · rw [load_putTask_old w id t e.2 (hv e h)]; exact hk e h
    · rw [h] at hlen; exact absurd rfl hlen

theorem find_eq_none_iff (w : World) (id : String) :
    w.find id = none ↔ mapGet w.tasks id = none := by
  simp [World.find]

theorem find_eq_some_iff (w : World) (id : String) (t : Task) :
    w.find id = some t ↔ ∃ p, mapGet w.tasks id = some p ∧ w.load p = t := by
  simp [World.find]

/-! ## the repository and service operations, evaluated -/

theorem getByID_none (w : World) (ctx : Context) (id : String)
    (h : mapGet w.tasks id = none) :
    MemoryRepository.GetByID w ctx id = (.error (.errorf "task not found"), w) := by
  simp [MemoryRepository.GetByID, h]

theorem getByID_some (w : World) (ctx : Context) (id : String) (p : Ptr)
    (h : mapGet w.tasks id = some p) :
    MemoryRepository.GetByID w ctx id
      = (.ok w.heap.length, { w with heap := w.heap ++ [w.load p] }) := by
  simp [MemoryRepository.GetByID, h, World.alloc]

theorem createTask_eq (w : World) (ctx : Context) (req : CreateTaskRequest)
    (uuid : String) (now : Int) (h : req.Title ≠ "") :
    TaskService.CreateTask w ctx req uuid now
      = (.ok w.heap.length, putTask w uuid
          { ID := uuid, Title := req.Title, Description := req.Description,
            Priority := req.Priority, Status := StatusActive, DueDate := req.DueDate,
            CreatedAt := now, UpdatedAt := now }) := by
  simp [TaskService.CreateTask, h, MemoryRepository.Create, World.alloc, World.load,
    putTask, List.getD_eq_getElem?_getD]

theorem updateTask_eq (w : World) (ctx : Context) (req : UpdateTaskRequest)
    (now : Int) (p : Ptr) (hk : w.Keyed) (hid : req.ID ≠ "") (ht : req.Title ≠ "")
    (hg : mapGet w.tasks req.ID = some p) :
    TaskService.UpdateTask w ctx req now
      = (.ok w.heap.length, putTask w req.ID
          { w.load p with
            Title := req.Title, Description := req.Description,
            Priority := req.Priority, Status := req.Status,
            DueDate := req.DueDate, UpdatedAt := now }) := by
  have hkey : (w.heap[p]?.getD default).ID = req.ID := by
    simpa [World.load, List.getD_eq_getElem?_getD] using hk _ (mapGet_mem hg)
  simp [TaskService.UpdateTask, hid, ht, getByID_some w ctx req.ID p hg,
    MemoryRepository.Update, World.store, World.load, putTask,
    List.getD_eq_getElem?_getD, hkey, hg]

theorem toggleTaskStatus_eq (w : World) (ctx : Context) (id : String)
    (now : Int) (p : Ptr) (hk : w.Keyed) (hid : id ≠ "")
    (hg : mapGet w.tasks id = some p) :
    TaskService.ToggleTaskStatus w ctx id now
      = (.ok w.heap.length, putTask w id
          { w.load p with
            Status := if (w.load p).Status = StatusActive then StatusCompleted
              else StatusActive,
            UpdatedAt := now }) := by
  have hkey : (w.heap[p]?.getD default).ID = id := by
    simpa [World.load, List.getD_eq_getElem?_getD] using hk _ (mapGet_mem hg)
  by_cases hs : (w.heap[p]?.getD default).Status = StatusActive
  · simp [TaskService.ToggleTaskStatus, hid, getByID_some w ctx id p hg,
      MemoryRepository.Update, World.store, World.load, putTask,
      List.getD_eq_getElem?_getD, hkey, hg, hs]
  · simp [TaskService.ToggleTaskStatus, hid, getByID_some w ctx id p hg,
      MemoryRepository.Update, World.store, World.load, putTask,
      List.getD_eq_getElem?_getD, hkey, hg, hs]

theorem deleteTask_eq (w : World) (ctx : Context) (id : String) (p : Ptr)
    (hid : id ≠ "") (hg : mapGet w.tasks id = some p) :
    TaskService.DeleteTask w ctx id
      = (.ok (), { heap := w.heap ++ [w.load p], tasks := mapDelete w.tasks id }) := by
  simp [TaskService.DeleteTask, hid, getByID_some w ctx id p hg,
    MemoryRepository.Delete, hg]

theorem mapDelete_cons (k : String) (p : Ptr) (m : List (String × Ptr)) (id : String) :
    mapDelete ((k, p) :: m) id
      = if k = id then mapDelete m id else (k, p) :: mapDelete m id := by
  by_cases h : k = id <;> simp [mapDelete, List.filter_cons, h]

theorem mapGet_mapDelete_same (m : List (String × Ptr)) (id : String) :
    mapGet (mapDelete m id) id = none := by
  induction m with
  | nil => rfl
  | cons e m ih =>
    obtain ⟨k, p⟩ := e
    rw [mapDelete_cons]
    by_cases hk : k = id
    · rw [if_pos hk]; exact ih
    · rw [if_neg hk]; simp only [mapGet, if_neg hk]; exact ih

theorem mapGet_mapDelete_other (m : List (String × Ptr)) (id k : String) (h : k ≠ id) :
    mapGet (mapDelete m id) k = mapGet m k := by
  induction m with
  | nil => rfl
  | cons e m ih =>
    obtain ⟨k0, p⟩ := e
    rw [mapDelete_cons]
    by_cases hk : k0 = id
    · rw [if_pos hk]
      have hne : ¬ k0 = k := fun hkk => h (hkk ▸ hk)
      simp only [mapGet, if_neg hne]; exact ih
    · rw [if_neg hk]
      by_cases hk2 : k0 = k
      · simp only [mapGet, if_pos hk2]
      · simp only [mapGet, if_neg hk2]; exact ih

theorem mem_mapDelete {m : List (String × Ptr)} {id : String} {e : String × Ptr}
    (h : e ∈ mapDelete m id) : e ∈ m := (List.mem_filter.1 h).1

theorem getTask_some (w : World) (ctx : Context) (id : String) (p : Ptr)
    (hid : id ≠ "") (hg : mapGet w.tasks id = some p) :
    ∃ got w2, TaskService.GetTask w ctx id = (.ok got, w2) ∧ w2.load got = w.load p := by
  refine ⟨w.heap.length, { w with heap := w.heap ++ [w.load p] }, ?_, ?_⟩
  · simp only [TaskService.GetTask, if_neg hid]
    exact getByID_some _ ctx id _ hg
  · simp [World.load, List.getD_eq_getElem?_getD]

theorem getTask_none (w : World) (ctx : Context) (id : String)
    (hid : id ≠ "") (hg : mapGet w.tasks id = none) :
    TaskService.GetTask w ctx id = (.error (.errorf "task not found"), w) := by
  simp only [TaskService.GetTask, if_neg hid]
  exact getByID_none _ ctx id hg

/-! ## TaskService: create, update, toggle, delete -/

/-- C3. `CreateTask` with an empty title returns an error and leaves the
state as it was. With a non-empty title (and the non-empty id that
`uuid.New().String()` yields) it succeeds; the returned task is Active, has
`CreatedAt = UpdatedAt`, carries the title, description, priority and due
date of the request, and `GetTask` on its id then succeeds with an equal
task. -/
theorem createTask_spec (w : World) (ctx : Context) (req : CreateTaskRequest)
    (uuid : String) (now : Int) (huuid : uuid ≠ "") :
    (req.Title = "" →
      ∃ err, TaskService.CreateTask w ctx req uuid now = (.error err, w)) ∧
    (req.Title ≠ "" →
      ∃ task w1, TaskService.CreateTask w ctx req uuid now = (.ok task, w1) ∧
        (w1.load task).Status = StatusActive ∧
        (w1.load task).CreatedAt = (w1.load task).UpdatedAt ∧
        (w1.load task).Title = req.Title ∧
        (w1.load task).Description = req.Description ∧
        (w1.load task).Priority = req.Priority ∧
        (w1.load task).DueDate = req.DueDate ∧
        ∃ got w2, TaskService.GetTask w1 ctx (w1.load task).ID = (.ok got, w2) ∧
          w2.load got = w1.load task) := by
  constructor
  · intro h
    exact ⟨.errorf "title is required", by simp [TaskService.CreateTask, h]⟩
  · intro h
    refine ⟨_, _, createTask_eq w ctx req uuid now h, ?_⟩
    rw [load_putTask_new]
    refine ⟨rfl, rfl, rfl, rfl, rfl, rfl, ?_⟩
    have hg : mapGet (putTask w uuid
        { ID := uuid, Title := req.Title, Description := req.Description,
          Priority := req.Priority, Status := StatusActive, DueDate := req.DueDate,
          CreatedAt := now, UpdatedAt := now }).tasks uuid = some w.heap.length :=
      mapGet_mapSet_same _ _ _
    obtain ⟨got, w2, h1, h2⟩ := getTask_some _ ctx uuid _ huuid hg
    exact ⟨got, w2, h1, by rw [h2, load_putTask_new]⟩

/-- C4. On a store keyed by task id, `UpdateTask` fails and leaves the state
as it was when the request's id is empty, its title is empty, or no task is
stored under the id. Otherwise it succeeds: the task stored under the id
afterwards is the returned one, it keeps the id and `CreatedAt` of the task
stored before, takes title, description, priority, status and due date from
the request and `UpdatedAt` from the clock, and the task stored under every
other key is the same as before. -/
theorem updateTask_spec (w : World) (ctx : Context) (req : UpdateTaskRequest)
    (now : Int) (hv : w.Valid) (hk : w.Keyed) :
    ((req.ID = "" ∨ req.Title = "" ∨ w.find req.ID = none) →
      ∃ err, TaskService.UpdateTask w ctx req now = (.error err, w)) ∧
    (∀ old, req.ID ≠ "" → req.Title ≠ "" → w.find req.ID = some old →
      ∃ task w1, TaskService.UpdateTask w ctx req now = (.ok task, w1) ∧
        w1.find req.ID = some (w1.load task) ∧
        (w1.load task).ID = old.ID ∧
        (w1.load task).CreatedAt = old.CreatedAt ∧
        (w1.load task).Title = req.Title ∧
        (w1.load task).Description = req.Description ∧
        (w1.load task).Priority = req.Priority ∧
        (w1.load task).Status = req.Status ∧
        (w1.load task).DueDate = req.DueDate ∧
        (w1.load task).UpdatedAt = now ∧
        ∀ k, k ≠ req.ID → w1.find k = w.find k) := by
  constructor
  · intro h
    by_cases hid : req.ID = ""
    · exact ⟨.errorf "id is required", by simp [TaskService.UpdateTask, hid]⟩
    · by_cases ht : req.Title = ""
      · exact ⟨.errorf "title is required", by simp [TaskService.UpdateTask, hid, ht]⟩
      · have hnone : mapGet w.tasks req.ID = none := by
          rcases h with h | h | h
          · exact absurd h hid
          · exact absurd h ht
          · exact (find_eq_none_iff _ _).1 h
        exact ⟨.wrapf "failed to get task" (.errorf "task not found"),
          by simp [TaskService.UpdateTask, hid, ht, getByID_none w ctx _ hnone]⟩
  · intro old hid ht hfind
    obtain ⟨p, hg, hload⟩ := (find_eq_some_iff _ _ _).1 hfind
    refine ⟨_, _, updateTask_eq w ctx req now p hk hid ht hg, ?_⟩
    rw [load_putTask_new, find_putTask_same, hload]
    exact ⟨rfl, rfl, rfl, rfl, rfl, rfl, rfl, rfl, rfl,
      fun k hne => find_putTask_other w _ k _ hv hne⟩

/-- C5. On a store keyed by task id, `ToggleTaskStatus` fails and leaves the
state as it was for an empty id and for an id under which nothing is stored.
For a non-empty stored id it succeeds: the task stored under the id
afterwards is the returned one, equal to the task stored before except that
`Status` is Completed if it was Active and Active for every other value, and
`UpdatedAt` is the clock value; the task stored under every other key is the
same as before. -/
theorem toggleTaskStatus_spec (w : World) (ctx : Context) (id : String)
    (now : Int) (hv : w.Valid) (hk : w.Keyed) :
    ((id = "" ∨ w.find id = none) →
      ∃ err, TaskService.ToggleTaskStatus w ctx id now = (.error err, w)) ∧
    (∀ old, id ≠ "" → w.find id = some old →
      ∃ task w1, TaskService.ToggleTaskStatus w ctx id now = (.ok task, w1) ∧
        w1.find id = some (w1.load task) ∧
        w1.load task = { old with
          Status := if old.Status = StatusActive then StatusCompleted else StatusActive,
          UpdatedAt := now } ∧
        ∀ k, k ≠ id → w1.find k = w.find k) := by
  constructor
  · intro h
    by_cases hid : id = ""
    · exact ⟨.errorf "id is required", by simp [TaskService.ToggleTaskStatus, hid]⟩
    · have hnone : mapGet w.tasks id = none := by
        rcases h with h | h
        · exact absurd h hid
        · exact (find_eq_none_iff _ _).1 h
      exact ⟨.wrapf "failed to get task" (.errorf "task not found"),
        by simp [TaskService.ToggleTaskStatus, hid, getByID_none w ctx _ hnone]⟩
  · intro old hid hfind
    obtain ⟨p, hg, hload⟩ := (find_eq_some_iff _ _ _).1 hfind
    refine ⟨_, _, toggleTaskStatus_eq w ctx id now p hk hid hg, ?_⟩
    rw [load_putTask_new, find_putTask_same, hload]
    exact ⟨rfl, rfl, fun k hne => find_putTask_other w _ k _ hv hne⟩

/-! ## delete, double toggle, aliasing -/

theorem load_heap_append_old (heap ts : List Task) (m : List (String × Ptr)) (w : World)
    (p : Ptr) (hh : heap = w.heap ++ ts) (h : p < w.heap.length) :
    ({ heap := heap, tasks := m } : World).load p = w.load p := by
  subst hh
  simp [World.load, List.getD_eq_getElem?_getD, List.getElem?_append_left h]

/-- C7. `DeleteTask` fails and leaves the state as it was for an empty id and
for an id under which nothing is stored. For a non-empty stored id it
succeeds; afterwards nothing is stored under the id, the task stored under
every other key is the same as before, `GetTask` on the id fails with the
not-found error and a second `DeleteTask` on the id fails with the not-found
error (wrapped by the existence check). -/
theorem deleteTask_spec (w : World) (ctx : Context) (id : String) (hv : w.Valid) :
    ((id = "" ∨ w.find id = none) →
      ∃ err, TaskService.DeleteTask w ctx id = (.error err, w)) ∧
    (∀ old, id ≠ "" → w.find id = some old →
      ∃ w1, TaskService.DeleteTask w ctx id = (.ok (), w1) ∧
        w1.find id = none ∧
        (∀ k, k ≠ id → w1.find k = w.find k) ∧
        TaskService.GetTask w1 ctx id = (.error (.errorf "task not found"), w1) ∧
        TaskService.DeleteTask w1 ctx id
          = (.error (.wrapf "failed to get task" (.errorf "task not found")), w1)) := by
  constructor
  · intro h
    by_cases hid : id = ""
    · exact ⟨.errorf "id is required", by simp [TaskService.DeleteTask, hid]⟩
    · have hnone : mapGet w.tasks id = none := by
        rcases h with h | h
        · exact absurd h hid
        · exact (find_eq_none_iff _ _).1 h
      exact ⟨.wrapf "failed to get task" (.errorf "task not found"),
        by simp [TaskService.DeleteTask, hid, getByID_none w ctx _ hnone]⟩
  · intro old hid hfind
    obtain ⟨p, hg, _⟩ := (find_eq_some_iff _ _ _).1 hfind
    have hgone : mapGet (mapDelete w.tasks id) id = none := mapGet_mapDelete_same _ _
    refine ⟨_, deleteTask_eq w ctx id p hid hg, ?_, ?_, ?_, ?_⟩
    · exact (find_eq_none_iff _ _).2 hgone
    · intro k hne
      simp only [World.find, mapGet_mapDelete_other _ _ _ hne]
      cases hk : mapGet w.tasks k with
      | none => rfl
      | some q =>
        simp only [Option.map_some']
        rw [load_heap_append_old _ [w.load p] _ w q rfl (hv _ (mapGet_mem hk))]
    · exact getTask_none _ ctx id hid hgone
    · simp [TaskService.DeleteTask, hid,
        getByID_none { heap := w.heap ++ [w.load p], tasks := mapDelete w.tasks id }
          ctx id hgone]

/-- C6, as amended. On a store keyed by task id, two `ToggleTaskStatus` calls
in succession on a stored non-empty id both succeed; the status stored
afterwards is the original one when that was Active or Completed, and is
Completed when the original status was any other value. -/
theorem toggle_twice_status (w : World) (ctx : Context) (id : String)
    (now1 now2 : Int) (old : Task) (hv : w.Valid) (hk : w.Keyed) (hid : id ≠ "")
    (hfind : w.find id = some old) :
    ∃ task1 w1 task2 w2 final,
      TaskService.ToggleTaskStatus w ctx id now1 = (.ok task1, w1) ∧
      TaskService.ToggleTaskStatus w1 ctx id now2 = (.ok task2, w2) ∧
      w2.find id = some final ∧
      (old.Status = StatusActive ∨ old.Status = StatusCompleted →
        final.Status = old.Status) ∧
      (old.Status ≠ StatusActive → old.Status ≠ StatusCompleted →
        final.Status = StatusCompleted) := by
  obtain ⟨p, hg, hload⟩ := (find_eq_some_iff _ _ _).1 hfind
  have hkey : (w.load p).ID = id := hk _ (mapGet_mem hg)
  have h1 := toggleTaskStatus_eq w ctx id now1 p hk hid hg
  rw [hload] at h1 hkey
  have hv1 := putTask_valid w id
    { old with
      Status := if old.Status = StatusActive then StatusCompleted else StatusActive,
      UpdatedAt := now1 } hv
  have hk1 := putTask_keyed w id
    { old with
      Status := if old.Status = StatusActive then StatusCompleted else StatusActive,
      UpdatedAt := now1 } hv hk hkey
  have hg1 : mapGet (putTask w id
    { old with
      Status := if old.Status = StatusActive then StatusCompleted else StatusActive,
      UpdatedAt := now1 }).tasks id = some w.heap.length := mapGet_mapSet_same _ _ _
  have h2 := toggleTaskStatus_eq _ ctx id now2 _ hk1 hid hg1
  rw [load_putTask_new] at h2
  refine ⟨_, _, _, _, _, h1, h2, find_putTask_same _ _ _, ?_, ?_⟩
  · rintro (h | h)
    · simp [h, StatusActive, StatusCompleted]
    · simp [h, StatusActive, StatusCompleted]
  · intro ha _
    show (if (if old.Status = StatusActive then StatusCompleted else StatusActive)
      = StatusActive then StatusCompleted else StatusActive) = StatusCompleted
    rw [if_neg ha, if_pos rfl]

/-- C6, counterexample. A task whose status was set to 2 by `UpdateTask`
(which stores any status value) is stored with status Completed after two
successful toggles, not with its original status. -/
theorem toggle_twice_counterexample :
    oddStatusWorld.Valid ∧ oddStatusWorld.Keyed ∧
    (oddStatusWorld.find "t1").map (fun t => t.Status) = some 2 ∧
    (TaskService.ToggleTaskStatus oddStatusWorld background "t1" 3).1 = .ok 2 ∧
    (TaskService.ToggleTaskStatus
      (TaskService.ToggleTaskStatus oddStatusWorld background "t1" 3).2
      background "t1" 4).1 = .ok 3 ∧
    ((toggledTwice oddStatusWorld background "t1" 3 4).find "t1").map (fun t => t.Status)
      = some StatusCompleted ∧
    ((toggledTwice oddStatusWorld background "t1" 3 4).find "t1").map (fun t => t.Status)
      ≠ (oddStatusWorld.find "t1").map (fun t => t.Status) := by
  refine ⟨by decide, by decide, by decide, rfl, rfl, by decide, by decide⟩

/-- C6, witness: two toggles of the Active task of the scenario store leave
it Active. -/
theorem toggle_twice_status_witness :
    milkWorld.Valid ∧ milkWorld.Keyed ∧ "t1" ≠ "" ∧ milkWorld.find "t1" = some milkTask ∧
    ∃ task1 w1 task2 w2 final,
      TaskService.ToggleTaskStatus milkWorld background "t1" 2 = (.ok task1, w1) ∧
      TaskService.ToggleTaskStatus w1 background "t1" 3 = (.ok task2, w2) ∧
      w2.find "t1" = some final ∧ final.Status = milkTask.Status := by
  obtain ⟨task1, w1, task2, w2, final, h1, h2, h3, h4, _⟩ :=
    toggle_twice_status milkWorld background "t1" 2 3 milkTask
      (by decide) (by decide) (by decide) (by decide)
  exact ⟨by decide, by decide, by decide, by decide,
    task1, w1, task2, w2, final, h1, h2, h3, h4 (Or.inl rfl)⟩

/-! ## isolation of returned records -/

theorem getByID_copy_isolated (w : World) (ctx : Context) (id : String) (p : Ptr)
    (hv : w.Valid) (hg : mapGet w.tasks id = some p) (t : Task) :
    ∃ got w1, MemoryRepository.GetByID w ctx id = (.ok got, w1) ∧
      w1.load got = w.load p ∧ ∀ k, (w1.store got t).find k = w.find k := by
  refine ⟨_, _, getByID_some w ctx id p hg, ?_, ?_⟩
  · simp [World.load, List.getD_eq_getElem?_getD]
  · intro k
    simp only [World.find]
    rw [show (World.store { w with heap := w.heap ++ [w.load p] } w.heap.length t).tasks
      = w.tasks from rfl]
    cases hk : mapGet w.tasks k with
    | none => rfl
    | some q =>
      have hq : q < w.heap.length := hv _ (mapGet_mem hk)
      simp only [Option.map_some']
      rw [load_store_other _ _ _ _ (Nat.ne_of_gt hq), load_append_old w _ q hq]

theorem getAll_copies_isolated (srt : SliceSorter) (w : World) (ctx : Context)
    (filter : Option FilterOptions) (hv : w.Valid) (t : Task) :
    ∃ tasks w1, MemoryRepository.GetAll srt w ctx filter = (.ok tasks, w1) ∧
      ∀ q ∈ tasks, ∀ k, (w1.store q t).find k = w.find k := by
  refine ⟨_, _, getAll_eq srt w ctx filter hv, ?_⟩
  intro q hq k
  have hq2 : q ∈ List.range' w.heap.length (keptOf filter w w.tasks).length :=
    (srt.perm _ _).subset hq
  have hge : w.heap.length ≤ q := (List.mem_range'_1.1 hq2).1
  simp only [World.find]
  rw [show (World.store (afterGetAll filter w) q t).tasks = w.tasks from rfl]
  cases hk : mapGet w.tasks k with
  | none => rfl
  | some r =>
    have hr : r < w.heap.length := hv _ (mapGet_mem hk)
    simp only [Option.map_some']
    rw [load_store_other _ _ _ _ (Nat.ne_of_gt (Nat.lt_of_lt_of_le hr hge))]
    exact congrArg some (load_append_old w (keptOf filter w w.tasks) r hr)

/-- The pointer that `CreateTask`, `UpdateTask` and `ToggleTaskStatus` return
is the pointer the map holds under the task's key afterwards. -/
theorem service_results_are_stored_pointers (w : World) (ctx : Context) (now : Int) :
    (∀ (req : CreateTaskRequest) (uuid : String) (task : Ptr) (w1 : World),
      TaskService.CreateTask w ctx req uuid now = (.ok task, w1) →
      mapGet w1.tasks uuid = some task) ∧
    (∀ (req : UpdateTaskRequest) (task : Ptr) (w1 : World), w.Keyed →
      TaskService.UpdateTask w ctx req now = (.ok task, w1) →
      mapGet w1.tasks req.ID = some task) ∧
    (∀ (id : String) (task : Ptr) (w1 : World), w.Keyed →
      TaskService.ToggleTaskStatus w ctx id now = (.ok task, w1) →
      mapGet w1.tasks id = some task) := by
  refine ⟨?_, ?_, ?_⟩
  · intro req uuid task w1 h
    by_cases ht : req.Title = ""
    · simp [TaskService.CreateTask, ht] at h
    · rw [createTask_eq w ctx req uuid now ht] at h
      simp only [Prod.mk.injEq, Except.ok.injEq] at h
      obtain ⟨h1, h2⟩ := h
      subst h1 h2
      exact mapGet_mapSet_same _ _ _
  · intro req task w1 hk h
    by_cases hid : req.ID = ""
    · simp [TaskService.UpdateTask, hid] at h
    · by_cases ht : req.Title = ""
      · simp [TaskService.UpdateTask, hid, ht] at h
      · cases hg : mapGet w.tasks req.ID with
        | none => simp [TaskService.UpdateTask, hid, ht, getByID_none w ctx _ hg] at h
        | some p =>
          rw [updateTask_eq w ctx req now p hk hid ht hg] at h
          simp only [Prod.mk.injEq, Except.ok.injEq] at h
          obtain ⟨h1, h2⟩ := h
          subst h1 h2
          exact mapGet_mapSet_same _ _ _
  · intro id task w1 hk h
    by_cases hid : id = ""
    · simp [TaskService.ToggleTaskStatus, hid] at h
    · cases hg : mapGet w.tasks id with
      | none => simp [TaskService.ToggleTaskStatus, hid, getByID_none w ctx _ hg] at h
      | some p =>
        rw [toggleTaskStatus_eq w ctx id now p hk hid hg] at h
        simp only [Prod.mk.injEq, Except.ok.injEq] at h
        obtain ⟨h1, h2⟩ := h
        subst h1 h2
        exact mapGet_mapSet_same _ _ _

/-- C10, the defect. The pointer that `CreateTask`, `UpdateTask` and
`ToggleTaskStatus` return is the one `Create` and `Update` put into the map.
On the scenario store each of them returns the address the map holds under
"t1"; once the caller clears the title through that address, `GetByID`
reads the empty title, not the title stored by the last repository
operation. -/
theorem returned_task_aliases_store :
    (TaskService.CreateTask NewMemoryRepository background milkRequest "t1" 1
        = (.ok 0, milkWorld) ∧
      mapGet milkWorld.tasks "t1" = some 0 ∧
      (readByID milkWorld background "t1").map (fun t => t.Title) = some "Buy milk" ∧
      (readByID (milkWorld.store 0 { milkWorld.load 0 with Title := "" })
        background "t1").map (fun t => t.Title) = some "") ∧
    ((TaskService.UpdateTask milkWorld background milkUpdate 2).1 = .ok 1 ∧
      mapGet (TaskService.UpdateTask milkWorld background milkUpdate 2).2.tasks "t1"
        = some 1 ∧
      (readByID (TaskService.UpdateTask milkWorld background milkUpdate 2).2
        background "t1").map (fun t => t.Title) = some "Buy oat milk" ∧
      (readByID ((TaskService.UpdateTask milkWorld background milkUpdate 2).2.store 1
          { (TaskService.UpdateTask milkWorld background milkUpdate 2).2.load 1 with
            Title := "" })
        background "t1").map (fun t => t.Title) = some "") ∧
    ((TaskService.ToggleTaskStatus milkWorld background "t1" 2).1 = .ok 1 ∧
      mapGet (TaskService.ToggleTaskStatus milkWorld background "t1" 2).2.tasks "t1"
        = some 1 ∧
      (readByID (TaskService.ToggleTaskStatus milkWorld background "t1" 2).2
        background "t1").map (fun t => t.Title) = some "Buy milk" ∧
      (readByID ((TaskService.ToggleTaskStatus milkWorld background "t1" 2).2.store 1
          { (TaskService.ToggleTaskStatus milkWorld background "t1" 2).2.load 1 with
            Title := "" })
        background "t1").map (fun t => t.Title) = some "") := by
  refine ⟨⟨rfl, by decide, by decide, by decide⟩, ⟨rfl, by decide, by decide, by decide⟩,
    ⟨rfl, by decide, by decide, by decide⟩⟩

/-! ## the theorems at concrete inputs -/

/-- C1, witness: the sample store, filtered on Completed and High. -/
theorem getAll_returns_matching_witness :
    sampleWorld.Valid ∧
    ∃ tasks w1, MemoryRepository.GetAll insertionSorter sampleWorld background
        (some completedHigh) = (.ok tasks, w1) ∧
      (tasks.map w1.load).Perm
        (sampleWorld.stored.filter (matchesFilter (some completedHigh))) := by
  obtain ⟨tasks, w1, h1, h2, _⟩ :=
    getAll_returns_matching insertionSorter sampleWorld background (some completedHigh)
      (by decide)
  exact ⟨by decide, tasks, w1, h1, h2⟩

/-- C2, witness: the sample store with empty `SortBy` and `SortOrder`
"asc". -/
theorem getAll_default_created_desc_witness :
    sampleWorld.Valid ∧ (sortOnly "" "asc").SortBy = "" ∧
    ∃ tasks w1, MemoryRepository.GetAll insertionSorter sampleWorld background
        (some (sortOnly "" "asc")) = (.ok tasks, w1) ∧
      (tasks.map w1.load).Chain' (fun a b => ¬ a.CreatedAt < b.CreatedAt) := by
  obtain ⟨tasks, w1, h1, _, _, h4⟩ :=
    getAll_default_created_desc insertionSorter sampleWorld background
      (some (sortOnly "" "asc")) (by decide) (fun f h => by cases h; rfl)
  exact ⟨by decide, rfl, tasks, w1, h1, h4⟩

/-- C3, witness: the scenario request on the empty store. -/
theorem createTask_spec_witness :
    "t1" ≠ "" ∧ milkRequest.Title ≠ "" ∧
    ∃ task w1, TaskService.CreateTask NewMemoryRepository background milkRequest "t1" 1
        = (.ok task, w1) ∧
      (w1.load task).Status = StatusActive ∧
      (w1.load task).CreatedAt = (w1.load task).UpdatedAt ∧
      ∃ got w2, TaskService.GetTask w1 background (w1.load task).ID = (.ok got, w2) ∧
        w2.load got = w1.load task := by
  obtain ⟨task, w1, h1, h2, h3, _, _, _, _, h8⟩ :=
    (createTask_spec NewMemoryRepository background milkRequest "t1" 1 (by decide)).2
      (by decide)
  exact ⟨by decide, by decide, task, w1, h1, h2, h3, h8⟩

/-- C4, witness: an update of the stored scenario task. -/
theorem updateTask_spec_witness :
    milkWorld.Valid ∧ milkWorld.Keyed ∧ milkUpdate.ID ≠ "" ∧ milkUpdate.Title ≠ "" ∧
    milkWorld.find milkUpdate.ID = some milkTask ∧
    ∃ task w1, TaskService.UpdateTask milkWorld background milkUpdate 2 = (.ok task, w1) ∧
      w1.find milkUpdate.ID = some (w1.load task) ∧
      (w1.load task).ID = milkTask.ID ∧
      (w1.load task).CreatedAt = milkTask.CreatedAt ∧
      (w1.load task).Status = milkUpdate.Status := by
  obtain ⟨task, w1, h1, h2, h3, h4, _, _, _, h8, _⟩ :=
    (updateTask_spec milkWorld background milkUpdate 2 (by decide) (by decide)).2
      milkTask (by decide) (by decide) (by decide)
  exact ⟨by decide, by decide, by decide, by decide, by decide,
    task, w1, h1, h2, h3, h4, h8⟩

/-- C5, witness: the scenario task becomes Completed. -/
theorem toggleTaskStatus_spec_witness :
    milkWorld.Valid ∧ milkWorld.Keyed ∧ "t1" ≠ "" ∧
    milkWorld.find "t1" = some milkTask ∧
    ∃ task w1, TaskService.ToggleTaskStatus milkWorld background "t1" 2 = (.ok task, w1) ∧
      w1.find "t1" = some (w1.load task) ∧
      w1.load task = { milkTask with Status := StatusCompleted, UpdatedAt := 2 } := by
  obtain ⟨task, w1, h1, h2, h3, _⟩ :=
    (toggleTaskStatus_spec milkWorld background "t1" 2 (by decide) (by decide)).2
      milkTask (by decide) (by decide)
  exact ⟨by decide, by decide, by decide, by decide, task, w1, h1, h2, h3⟩

/-- C7, witness: the scenario task is deleted, and deleting it again is a
not-found error. -/
theorem deleteTask_spec_witness :
    milkWorld.Valid ∧ "t1" ≠ "" ∧ milkWorld.find "t1" = some milkTask ∧
    ∃ w1, TaskService.DeleteTask milkWorld background "t1" = (.ok (), w1) ∧
      w1.find "t1" = none ∧
      TaskService.DeleteTask w1 background "t1"
        = (.error (.wrapf "failed to get task" (.errorf "task not found")), w1) := by
  obtain ⟨w1, h1, h2, _, _, h5⟩ :=
    (deleteTask_spec milkWorld background "t1" (by decide)).2
      milkTask (by decide) (by decide)
  exact ⟨by decide, by decide, by decide, w1, h1, h2, h5⟩

/-- C8, witness: the scenario with priorities Low, High, Medium sorted by
"priority" in "desc" order. -/
theorem getAll_sorted_by_key_witness :
    sampleWorld.Valid ∧
    (sampleWorld.stored.map (fun t => t.Priority))
      = [PriorityLow, PriorityHigh, PriorityMedium] ∧
    ∃ tasks w1, MemoryRepository.GetAll insertionSorter sampleWorld background
        (some (sortOnly "priority" "desc")) = (.ok tasks, w1) ∧
      (tasks.map w1.load).map (fun t => t.Priority)
        = [PriorityHigh, PriorityMedium, PriorityLow] := by
  obtain ⟨tasks, w1, h1, _, _, _, _, _, _, _, h9⟩ :=
    getAll_sorted_by_key insertionSorter sampleWorld background
      (sortOnly "priority" "desc") (by decide)
  exact ⟨by decide, by decide, tasks, w1, h1, h9 rfl rfl (by decide)⟩

/-- C9, witness: descending order on the sample store, whose first task has
no due date. -/
theorem getAll_due_date_order_witness :
    sampleWorld.Valid ∧ (sortOnly "due_date" "desc").SortBy = "due_date" ∧
    ∃ tasks w1, MemoryRepository.GetAll insertionSorter sampleWorld background
        (some (sortOnly "due_date" "desc")) = (.ok tasks, w1) ∧
      (tasks.map w1.load).Pairwise (fun a b =>
        (a.DueDate = none → b.DueDate = none) ∧
        (∀ da db, a.DueDate = some da → b.DueDate = some db →
          if (sortOnly "due_date" "desc").SortOrder = "desc" then da ≥ db else da ≤ db)) := by
  obtain ⟨tasks, w1, h1, _, h3⟩ :=
    getAll_due_date_order insertionSorter sampleWorld background
      (sortOnly "due_date" "desc") (by decide) rfl
  exact ⟨by decide, rfl, tasks, w1, h1, h3⟩

/-! ## the store invariant along sequences of service calls -/

theorem putTask_titled (w : World) (id : String) (t : Task) (hv : w.Valid)
    (ht : w.Titled) (h : t.Title ≠ "") : (putTask w id t).Titled := by
  intro e he
  have hmem : e ∈ mapSet w.tasks id w.heap.length := he
  by_cases hlen : e.2 = w.heap.length
  · rw [hlen, load_putTask_new]; exact h
  · rcases mem_mapSet hmem with h1 | h1
    · rw [load_putTask_old w id t e.2 (hv e h1)]; exact ht e h1
    · rw [h1] at hlen; exact absurd rfl hlen

/-- Growing the heap and dropping map entries keeps the three invariants. -/
theorem invariants_of_heap_append (w : World) (ts : List Task) (m : List (String × Ptr))
    (hm : ∀ e ∈ m, e ∈ w.tasks) (hv : w.Valid) (hk : w.Keyed) (ht : w.Titled) :
    ({ heap := w.heap ++ ts, tasks := m } : World).Valid ∧
    ({ heap := w.heap ++ ts, tasks := m } : World).Keyed ∧
    ({ heap := w.heap ++ ts, tasks := m } : World).Titled := by
  refine ⟨?_, ?_, ?_⟩
  · intro e he
    have h1 : e.2 < w.heap.length := hv e (hm e he)
    show e.2 < (w.heap ++ ts).length
    rw [List.length_append]
    exact Nat.lt_add_right _ h1
  · intro e he
    rw [load_heap_append_old _ ts m w e.2 rfl (hv e (hm e he))]
    exact hk e (hm e he)
  · intro e he
    rw [load_heap_append_old _ ts m w e.2 rfl (hv e (hm e he))]
    exact ht e (hm e he)

theorem createTask_preserves (w : World) (ctx : Context) (req : CreateTaskRequest)
    (uuid : String) (now : Int) (hv : w.Valid) (hk : w.Keyed) (ht : w.Titled) :
    (TaskService.CreateTask w ctx req uuid now).2.Valid ∧
    (TaskService.CreateTask w ctx req uuid now).2.Keyed ∧
    (TaskService.CreateTask w ctx req uuid now).2.Titled := by
  by_cases h : req.Title = ""
  · have : (TaskService.CreateTask w ctx req uuid now).2 = w := by
      simp [TaskService.CreateTask, h]
    rw [this]; exact ⟨hv, hk, ht⟩
  · rw [createTask_eq w ctx req uuid now h]
    exact ⟨putTask_valid _ _ _ hv, putTask_keyed _ _ _ hv hk rfl,
      putTask_titled _ _ _ hv ht h⟩

theorem getTask_preserves (w : World) (ctx : Context) (id : String)
    (hv : w.Valid) (hk : w.Keyed) (ht : w.Titled) :
    (TaskService.GetTask w ctx id).2.Valid ∧
    (TaskService.GetTask w ctx id).2.Keyed ∧
    (TaskService.GetTask w ctx id).2.Titled := by
  by_cases hid : id = ""
  · have : (TaskService.GetTask w ctx id).2 = w := by simp [TaskService.GetTask, hid]
    rw [this]; exact ⟨hv, hk, ht⟩
  · cases hg : mapGet w.tasks id with
    | none => rw [getTask_none w ctx id hid hg]; exact ⟨hv, hk, ht⟩
    | some p =>
      have : TaskService.GetTask w ctx id
          = (.ok w.heap.length, { heap := w.heap ++ [w.load p], tasks := w.tasks }) := by
        simp only [TaskService.GetTask, if_neg hid]
        exact getByID_some w ctx id p hg
      rw [this]
      exact invariants_of_heap_append w _ _ (fun _ he => he) hv hk ht

theorem getTasks_preserves (srt : SliceSorter) (w : World) (ctx : Context)
    (filter : Option FilterOptions) (hv : w.Valid) (hk : w.Keyed) (ht : w.Titled) :
    (TaskService.GetTasks srt w ctx filter).2.Valid ∧
    (TaskService.GetTasks srt w ctx filter).2.Keyed ∧
    (TaskService.GetTasks srt w ctx filter).2.Titled := by
  have : TaskService.GetTasks srt w ctx filter
      = (.ok (resultOfGetAll srt filter w), afterGetAll filter w) :=
    getAll_eq srt w ctx filter hv
  rw [this]
  exact invariants_of_heap_append w _ _ (fun _ he => he) hv hk ht

theorem updateTask_preserves (w : World) (ctx : Context) (req : UpdateTaskRequest)
    (now : Int) (hv : w.Valid) (hk : w.Keyed) (ht : w.Titled) :
    (TaskService.UpdateTask w ctx req now).2.Valid ∧
    (TaskService.UpdateTask w ctx req now).2.Keyed ∧
    (TaskService.UpdateTask w ctx req now).2.Titled := by
  by_cases hid : req.ID = ""
  · have : (TaskService.UpdateTask w ctx req now).2 = w := by
      simp [TaskService.UpdateTask, hid]
    rw [this]; exact ⟨hv, hk, ht⟩
  · by_cases htitle : req.Title = ""
    · have : (TaskService.UpdateTask w ctx req now).2 = w := by
        simp [TaskService.UpdateTask, hid, htitle]
      rw [this]; exact ⟨hv, hk, ht⟩
    · cases hg : mapGet w.tasks req.ID with
      | none =>
        have : (TaskService.UpdateTask w ctx req now).2 = w := by
          simp [TaskService.UpdateTask, hid, htitle, getByID_none w ctx _ hg]
        rw [this]; exact ⟨hv, hk, ht⟩
      | some p =>
        rw [updateTask_eq w ctx req now p hk hid htitle hg]
        exact ⟨putTask_valid _ _ _ hv, putTask_keyed _ _ _ hv hk (hk _ (mapGet_mem hg)),
          putTask_titled _ _ _ hv ht htitle⟩

theorem toggleTaskStatus_preserves (w : World) (ctx : Context) (id : String)
    (now : Int) (hv : w.Valid) (hk : w.Keyed) (ht : w.Titled) :
    (TaskService.ToggleTaskStatus w ctx id now).2.Valid ∧
    (TaskService.ToggleTaskStatus w ctx id now).2.Keyed ∧
    (TaskService.ToggleTaskStatus w ctx id now).2.Titled := by
  by_cases hid : id = ""
  · have : (TaskService.ToggleTaskStatus w ctx id now).2 = w := by
      simp [TaskService.ToggleTaskStatus, hid]
    rw [this]; exact ⟨hv, hk, ht⟩
  · cases hg : mapGet w.tasks id with
    | none =>
      have : (TaskService.ToggleTaskStatus w ctx id now).2 = w := by
        simp [TaskService.ToggleTaskStatus, hid, getByID_none w ctx _ hg]
      rw [this]; exact ⟨hv, hk, ht⟩
    | some p =>
      rw [toggleTaskStatus_eq w ctx id now p hk hid hg]
      exact ⟨putTask_valid _ _ _ hv, putTask_keyed _ _ _ hv hk (hk _ (mapGet_mem hg)),
        putTask_titled _ _ _ hv ht (ht _ (mapGet_mem hg))⟩

theorem deleteTask_preserves (w : World) (ctx : Context) (id : String)
    (hv : w.Valid) (hk : w.Keyed) (ht : w.Titled) :
    (TaskService.DeleteTask w ctx id).2.Valid ∧
    (TaskService.DeleteTask w ctx id).2.Keyed ∧
    (TaskService.DeleteTask w ctx id).2.Titled := by
  by_cases hid : id = ""
  · have : (TaskService.DeleteTask w ctx id).2 = w := by
      simp [TaskService.DeleteTask, hid]
    rw [this]; exact ⟨hv, hk, ht⟩
  · cases hg : mapGet w.tasks id with
    | none =>
      have : (TaskService.DeleteTask w ctx id).2 = w := by
        simp [TaskService.DeleteTask, hid, getByID_none w ctx _ hg]
      rw [this]; exact ⟨hv, hk, ht⟩
    | some p =>
      rw [deleteTask_eq w ctx id p hid hg]
      exact invariants_of_heap_append w _ _ (fun _ he => mem_mapDelete he) hv hk ht

theorem serviceCall_preserves (srt : SliceSorter) (w : World) (call : ServiceCall)
    (h : w.Valid ∧ w.Keyed ∧ w.Titled) :
    (call.run srt w).Valid ∧ (call.run srt w).Keyed ∧ (call.run srt w).Titled := by
  obtain ⟨hv, hk, ht⟩ := h
  cases call with
  | createTask ctx req uuid now => exact createTask_preserves w ctx req uuid now hv hk ht
  | getTask ctx id => exact getTask_preserves w ctx id hv hk ht
  | getTasks ctx filter => exact getTasks_preserves srt w ctx filter hv hk ht
  | updateTask ctx req now => exact updateTask_preserves w ctx req now hv hk ht
  | deleteTask ctx id => exact deleteTask_preserves w ctx id hv hk ht
  | toggleTaskStatus ctx id now => exact toggleTaskStatus_preserves w ctx id now hv hk ht

theorem foldl_calls_preserves (srt : SliceSorter) (calls : List ServiceCall) :
    ∀ w : World, (w.Valid ∧ w.Keyed ∧ w.Titled) →
      (calls.foldl (ServiceCall.run srt) w).Valid ∧
      (calls.foldl (ServiceCall.run srt) w).Keyed ∧
      (calls.foldl (ServiceCall.run srt) w).Titled := by
  induction calls with
  | nil => intro w h; exact h
  | cons call rest ih =>
    intro w h
    exact ih _ (serviceCall_preserves srt w call h)

theorem runCalls_invariants (srt : SliceSorter) (calls : List ServiceCall) :
    (runCalls srt calls).Valid ∧ (runCalls srt calls).Keyed ∧
    (runCalls srt calls).Titled := by
  refine foldl_calls_preserves srt calls NewMemoryRepository ⟨?_, ?_, ?_⟩
  · intro e he; cases he
  · intro e he; cases he
  · intro e he; cases he

/-- C12. In every state reached from the empty in-memory store by a sequence
of `TaskService` calls (create, get, list, update, delete, toggle, with any
arguments, succeeding or failing), every stored task has a non-empty title
and is stored under the key equal to its own `ID`. -/
theorem reachable_store_invariant (srt : SliceSorter) (calls : List ServiceCall)
    (id : String) (t : Task) (h : (runCalls srt calls).find id = some t) :
    t.Title ≠ "" ∧ t.ID = id := by
  obtain ⟨_, hk, ht⟩ := runCalls_invariants srt calls
  obtain ⟨p, hg, hload⟩ := (find_eq_some_iff _ _ _).1 h
  have hmem := mapGet_mem hg
  rw [← hload]
  exact ⟨ht _ hmem, hk _ hmem⟩

/-- C12, witness: the scenario task after create, toggle and a failing
update with an empty title. -/
theorem reachable_store_invariant_witness :
    (runCalls insertionSorter
        [ .createTask background milkRequest "t1" 1,
          .toggleTaskStatus background "t1" 2,
          .updateTask background { milkUpdate with Title := "" } 3 ]).find "t1"
      = some { milkTask with Status := StatusCompleted, UpdatedAt := 2 } ∧
    ({ milkTask with Status := StatusCompleted, UpdatedAt := 2 } : Task).Title ≠ "" ∧
    ({ milkTask with Status := StatusCompleted, UpdatedAt := 2 } : Task).ID = "t1" := by
  have h : (runCalls insertionSorter
      [ .createTask background milkRequest "t1" 1,
        .toggleTaskStatus background "t1" 2,
        .updateTask background { milkUpdate with Title := "" } 3 ]).find "t1"
      = some { milkTask with Status := StatusCompleted, UpdatedAt := 2 } := by decide
  exact ⟨h, reachable_store_invariant insertionSorter _ "t1" _ h⟩

/-! ## not-found on Update and Delete in the two repository variants -/

theorem memory_update_absent (w : World) (ctx : Context) (task : Ptr)
    (h : mapGet w.tasks (w.load task).ID = none) :
    MemoryRepository.Update w ctx task = (.error (.errorf "task not found"), w) := by
  simp [MemoryRepository.Update, h]

theorem memory_delete_absent (w : World) (ctx : Context) (id : String)
    (h : mapGet w.tasks id = none) :
    MemoryRepository.Delete w ctx id = (.error (.errorf "task not found"), w) := by
  simp [MemoryRepository.Delete, h]

/-- Whenever the UPDATE statement executes without error, whatever number of
rows it affected, the relational `Update` returns nil. -/
theorem postgres_update_of_executed (db : SqlDB) (ctx : Context) (task : Task)
    (res : SqlResult) (h : db.execUpdate ctx task = .ok res) :
    PostgresRepository.Update db ctx task = .ok () := by
  simp [PostgresRepository.Update, h]

/-- Whenever the DELETE statement executes without error, whatever number of
rows it affected, the relational `Delete` returns nil. -/
theorem postgres_delete_of_executed (db : SqlDB) (ctx : Context) (id : String)
    (res : SqlResult) (h : db.execDelete ctx id = .ok res) :
    PostgresRepository.Delete db ctx id = .ok () := by
  simp [PostgresRepository.Delete, h]

/-- C11, the defect. On a database in which the UPDATE and the DELETE
statement execute without error and affect zero rows, the relational `Update`
and `Delete` return nil, not a not-found error; the in-memory `Update` and
`Delete` of an id that is not stored return the not-found error. -/
theorem postgres_zero_rows_reports_success :
    noSuchRow.execUpdate background milkTask = .ok { rowsAffected := 0 } ∧
    PostgresRepository.Update noSuchRow background milkTask = .ok () ∧
    noSuchRow.execDelete background "t1" = .ok { rowsAffected := 0 } ∧
    PostgresRepository.Delete noSuchRow background "t1" = .ok () ∧
    draftWorld.find "t1" = none ∧
    draftWorld.load 0 = milkTask ∧
    MemoryRepository.Update draftWorld background 0
      = (.error (.errorf "task not found"), draftWorld) ∧
    MemoryRepository.Delete draftWorld background "t1"
      = (.error (.errorf "task not found"), draftWorld) :=
  ⟨rfl, rfl, rfl, rfl, by decide, by decide, rfl, rfl⟩

/-! ## error propagation in the service -/

/-- The service on the in-memory store is the service over the repository
interface, applied to the in-memory repository. -/
theorem taskService_over_memoryRepository (srt : SliceSorter) (w : World) (ctx : Context) :
    (∀ req uuid now, TaskService.CreateTask w ctx req uuid now
      = service.CreateTask (memoryRepository srt) w ctx req uuid now) ∧
    (∀ id, TaskService.GetTask w ctx id = service.GetTask (memoryRepository srt) w ctx id) ∧
    (∀ filter, TaskService.GetTasks srt w ctx filter
      = service.GetTasks (memoryRepository srt) w ctx filter) ∧
    (∀ req now, TaskService.UpdateTask w ctx req now
      = service.UpdateTask (memoryRepository srt) w ctx req now) ∧
    (∀ id, TaskService.DeleteTask w ctx id
      = service.DeleteTask (memoryRepository srt) w ctx id) ∧
    (∀ id now, TaskService.ToggleTaskStatus w ctx id now
      = service.ToggleTaskStatus (memoryRepository srt) w ctx id now) :=
  ⟨fun _ _ _ => rfl, fun _ => rfl, fun _ => rfl, fun _ _ => rfl, fun _ => rfl,
    fun _ _ => rfl⟩

/-- C13, as amended. Over any repository: `CreateTask`, `UpdateTask` and
`ToggleTaskStatus` return every error of their repository calls wrapped in
one layer naming the failed step, and `DeleteTask` does so for the error of
its existence check; the error of the final `Delete` call of `DeleteTask`, of
the `GetByID` call of `GetTask` and of the `GetAll` call of `GetTasks` is
returned as it is. In every case the operation returns an error when its
repository call did. -/
theorem service_error_propagation (repo : TaskRepository) (w : World) (ctx : Context) :
    (∀ req uuid now e w2, req.Title ≠ "" →
      repo.Create (w.alloc (newTask req uuid now)).2 ctx (w.alloc (newTask req uuid now)).1
        = (.error e, w2) →
      service.CreateTask repo w ctx req uuid now
        = (.error (.wrapf "failed to create task" e), w2)) ∧
    (∀ req now e w1, req.ID ≠ "" → req.Title ≠ "" →
      repo.GetByID w ctx req.ID = (.error e, w1) →
      service.UpdateTask repo w ctx req now
        = (.error (.wrapf "failed to get task" e), w1)) ∧
    (∀ req now task w1 e w3, req.ID ≠ "" → req.Title ≠ "" →
      repo.GetByID w ctx req.ID = (.ok task, w1) →
      repo.Update (updateFields w1 task req now) ctx task = (.error e, w3) →
      service.UpdateTask repo w ctx req now
        = (.error (.wrapf "failed to update task" e), w3)) ∧
    (∀ id now e w1, id ≠ "" →
      repo.GetByID w ctx id = (.error e, w1) →
      service.ToggleTaskStatus repo w ctx id now
        = (.error (.wrapf "failed to get task" e), w1)) ∧
    (∀ id now task w1 e w4, id ≠ "" →
      repo.GetByID w ctx id = (.ok task, w1) →
      repo.Update (toggleFields w1 task now) ctx task = (.error e, w4) →
      service.ToggleTaskStatus repo w ctx id now
        = (.error (.wrapf "failed to update task" e), w4)) ∧
    (∀ id e w1, id ≠ "" →
      repo.GetByID w ctx id = (.error e, w1) →
      service.DeleteTask repo w ctx id = (.error (.wrapf "failed to get task" e), w1)) ∧
    (∀ id task w1 e w2, id ≠ "" →
      repo.GetByID w ctx id = (.ok task, w1) →
      repo.Delete w1 ctx id = (.error e, w2) →
      service.DeleteTask repo w ctx id = (.error e, w2)) ∧
    (∀ id e w1, id ≠ "" →
      repo.GetByID w ctx id = (.error e, w1) →
      service.GetTask repo w ctx id = (.error e, w1)) ∧
    (∀ filter e w1,
      repo.GetAll w ctx filter = (.error e, w1) →
      service.GetTasks repo w ctx filter = (.error e, w1)) := by
  refine ⟨?_, ?_, ?_, ?_, ?_, ?_, ?_, ?_, ?_⟩
  · intro req uuid now e w2 ht h
    simp only [service.CreateTask, if_neg ht]
    simp only [World.alloc] at h ⊢
    rw [h]
  · intro req now e w1 hid ht h
    simp only [service.UpdateTask, if_neg hid, if_neg ht, h]
  · intro req now task w1 e w3 hid ht h1 h2
    simp only [service.UpdateTask, if_neg hid, if_neg ht, h1, h2]
  · intro id now e w1 hid h
    simp only [service.ToggleTaskStatus, if_neg hid, h]
  · intro id now task w1 e w4 hid h1 h2
    simp only [service.ToggleTaskStatus, if_neg hid, h1, h2]
  · intro id e w1 hid h
    simp only [service.DeleteTask, if_neg hid, h]
  · intro id task w1 e w2 hid h1 h2
    simp only [service.DeleteTask, if_neg hid, h1, h2]
  · intro id e w1 hid h
    simp only [service.GetTask, if_neg hid, h]
  · intro filter e w1 h
    simp only [service.GetTasks, h]

/-- C13, counterexample. `GetTask` on the in-memory store returns the bare
not-found error of `GetByID`; `GetTasks` returns the bare error of a failing
`GetAll`; `DeleteTask` returns the bare error of a failing `Delete`. None of
them is a wrapped error. -/
theorem unwrapped_errors_counterexample :
    (MemoryRepository.GetByID NewMemoryRepository background "t1").1
      = .error (.errorf "task not found") ∧
    (TaskService.GetTask NewMemoryRepository background "t1").1
      = .error (.errorf "task not found") ∧
    (brokenRepository.GetAll NewMemoryRepository background none).1
      = .error (.errorf "connection refused") ∧
    (service.GetTasks brokenRepository NewMemoryRepository background none).1
      = .error (.errorf "connection refused") ∧
    ((readOnlyRepository insertionSorter).Delete
        ((readOnlyRepository insertionSorter).GetByID milkWorld background "t1").2
        background "t1").1
      = .error (.errorf "read-only storage") ∧
    (service.DeleteTask (readOnlyRepository insertionSorter) milkWorld background "t1").1
      = .error (.errorf "read-only storage") ∧
    (∀ msg cause, Error.errorf "task not found" ≠ Error.wrapf msg cause) :=
  ⟨rfl, rfl, rfl, rfl, rfl, rfl, fun _ _ h => by cases h⟩

/-- C13, witness: a lost connection during `CreateTask` and `UpdateTask`, and
a failing write during `DeleteTask`. -/
theorem service_error_propagation_witness :
    milkRequest.Title ≠ "" ∧ milkUpdate.ID ≠ "" ∧ milkUpdate.Title ≠ "" ∧
    service.CreateTask brokenRepository NewMemoryRepository background milkRequest "t1" 1
      = (.error (.wrapf "failed to create task" (.errorf "connection refused")),
          (NewMemoryRepository.alloc (newTask milkRequest "t1" 1)).2) ∧
    service.UpdateTask brokenRepository milkWorld background milkUpdate 2
      = (.error (.wrapf "failed to get task" (.errorf "connection refused")), milkWorld) ∧
    (service.DeleteTask (readOnlyRepository insertionSorter) milkWorld background "t1").1
      = .error (.errorf "read-only storage") := by
  have h := service_error_propagation brokenRepository NewMemoryRepository background
  have h2 := service_error_propagation brokenRepository milkWorld background
  have h3 := service_error_propagation (readOnlyRepository insertionSorter) milkWorld
    background
  refine ⟨by decide, by decide, by decide, ?_, ?_, ?_⟩
  · exact h.1 milkRequest "t1" 1 _ _ (by decide) rfl
  · exact h2.2.1 milkUpdate 2 _ _ (by decide) (by decide) rfl
  · rw [h3.2.2.2.2.2.2.1 "t1" 1 _ (.errorf "read-only storage") _ (by decide) rfl rfl]

/-! ## the context in the in-memory repository -/

/-- C14, as amended. No operation of the in-memory repository consults its
context: with any context, in particular one that is already cancelled, it
returns the same result and leaves the same state as with any other; `Create`
returns nil and puts the task into the map. -/
theorem memory_repository_ignores_context (srt : SliceSorter) (w : World)
    (ctx other : Context) (task : Ptr) (id : String) (filter : Option FilterOptions) :
    MemoryRepository.Create w ctx task = MemoryRepository.Create w other task ∧
    MemoryRepository.GetByID w ctx id = MemoryRepository.GetByID w other id ∧
    MemoryRepository.GetAll srt w ctx filter = MemoryRepository.GetAll srt w other filter ∧
    MemoryRepository.Update w ctx task = MemoryRepository.Update w other task ∧
    MemoryRepository.Delete w ctx id = MemoryRepository.Delete w other id ∧
    (MemoryRepository.Create w ctx task).1 = .ok () ∧
    mapGet (MemoryRepository.Create w ctx task).2.tasks (w.load task).ID = some task :=
  ⟨rfl, rfl, rfl, rfl, rfl, rfl, mapGet_mapSet_same _ _ _⟩

/-- C14, counterexample. With a cancelled context `Create` returns nil and
stores the task, and `GetByID`, `Update` and `Delete` on a stored task
succeed, `Delete` emptying the map. -/
theorem cancelled_context_counterexample :
    cancelledContext.cancelled = true ∧
    draftWorld.tasks = [] ∧
    MemoryRepository.Create draftWorld cancelledContext 0
      = (.ok (), { heap := [milkTask], tasks := [("t1", 0)] }) ∧
    milkWorld.tasks = [("t1", 0)] ∧
    (MemoryRepository.GetByID milkWorld cancelledContext "t1").1 = .ok 1 ∧
    (MemoryRepository.GetAll insertionSorter milkWorld cancelledContext none).1
      = .ok [1] ∧
    (MemoryRepository.Update milkWorld cancelledContext 0).1 = .ok () ∧
    MemoryRepository.Delete milkWorld cancelledContext "t1"
      = (.ok (), { heap := milkWorld.heap, tasks := [] }) :=
  ⟨rfl, rfl, rfl, rfl, rfl, rfl, rfl, rfl⟩

end TodoWails
